import Mathlib

/-!
Verification of the Visual Leak Detector core (src/src/vld.cpp) against its
natural-language specification.

The development shallowly embeds the heap/block ledger
(VisualLeakDetector::mapBlock, unmapBlock, remapBlock, mapHeap, unmapHeap),
the leak reporter (reportLeaks, eraseDuplicates, markAllLeaksAsReported,
ReportLeaks), the per-thread capture protocol (CaptureContext), and the
NT loader patch (NtDllPatch / NtDllRestore, 32-bit instruction patterns).

Modelling conventions:
- a 64-bit build is assumed for the ledger: SIZE_T values live below 2 ^ 64,
  machine arithmetic is explicit modular arithmetic on Nat;
- HANDLEs, pointers and thread ids are Nat; the null pointer is 0;
- the Map containers are association lists in insertion order; the source
  containers are associative maps with deterministic iteration order and
  every structural fact proved here is order-independent;
- external collaborators (CRT debug-header reads from process memory, the
  stack-capture service, report sinks) are parameters gathered in Env; the
  report sink is modelled as a list of emitted events carrying the fields
  the reporter computes.
-/

namespace VLD

/-- Word size of SIZE_T on a 64-bit build. -/
def W : Nat := 2 ^ 64

/-- SIZE_MAX for a 64-bit build. -/
def SIZE_MAX : Nat := W - 1

/-- Modular SIZE_T addition (unsigned wrap-around). -/
def wadd (a b : Nat) : Nat := (a + b) % W

/-- Modular SIZE_T subtraction (unsigned wrap-around). -/
def wsub (a b : Nat) : Nat := (a % W + (W - b % W)) % W

/-- blockinfo_t: metadata recorded for one live allocation.  The call stack
is attached lazily by CaptureContext after the allocating call returns; a
call stack is its list of frame addresses. -/
structure BlockInfo where
  threadId : Nat
  serialNumber : Nat
  size : Nat
  reported : Bool
  debugCrtAlloc : Bool
  ucrt : Bool
  callStack : Option (List Nat)
deriving Repr, DecidableEq

/-- One heap's BlockMap: block address to block metadata, insertion order. -/
abbrev BlockMap := List (Nat × BlockInfo)

/-- The two-level ledger: heap handle to BlockMap, insertion order. -/
abbrev HeapMap := List (Nat × BlockMap)

/-- The m_options bits consulted by the embedded operations. -/
structure Opts where
  aggregateDuplicates : Bool
  skipCrtStartupLeaks : Bool
  validateHeapFree : Bool
  vldOff : Bool
  traceInternalFrames : Bool
deriving Repr, DecidableEq

/-- context_t: the captured frame data for an allocation call site (the
fields beyond the frame pointer and originating function are not read by
the embedded control flow). -/
structure ContextT where
  func : Nat
  fp : Nat
deriving Repr, DecidableEq

/-- External collaborators, as resolved-value oracles.

Modelled from the spec: the CRT debug-header probe reads raw process memory
through struct layouts (crtdbgblockheader_t and its UCRT variant, declared
in headers outside the shown source); crtDetect returns (some ucrt) when the
heuristic validation of a structurally plausible header at the given block
address with the given recorded block size succeeds, telling which of the
two layouts validated.  crtUse and crtSize read the use and size fields of
the header under the given layout, crtData is CRTDBGBLOCKDATA.  isCrtStartup
is CallStack::isCrtStartupAlloc and captureStack is the external
stack-capture service, both functions of data only. -/
structure Env where
  crtDetect : Nat → Nat → Option Bool
  crtUse : Nat → Bool → Nat
  crtSize : Nat → Bool → Nat
  crtData : Nat → Nat
  isCrtStartup : List Nat → Bool
  captureStack : ContextT → List Nat

/-- Lines emitted through the report sink, reduced to the fields computed
by the embedded code. -/
inductive ReportEvent
  /-- VLD: new allocation at already allocated address (mapBlock). -/
  | duplicateAddressWarning (addr oldSize newSize : Nat)
  /-- WARNING: duplicate heap (mapHeap). -/
  | duplicateHeapWarning (heap : Nat)
  /-- CRITICAL ERROR: allocated in one heap and freed in another
  (unmapBlock), carrying the allocation block data and both stacks. -/
  | crossHeapError (serial addr size tid : Nat)
      (allocStack deallocStack : List Nat)
  /-- WARNING: Visual Leak Detector detected memory leaks (printed once). -/
  | leaksDetectedBanner
  /-- One reported leak: serial, display address, display size, duplicate
  count, total bytes, owning thread. -/
  | leakEntry (serial addr size count total tid : Nat)
deriving Repr, DecidableEq

/-- The ledger together with its counters. -/
structure LedgerState where
  heapMap : HeapMap
  curAlloc : Nat
  totalAlloc : Nat
  maxAlloc : Nat
  requestCurr : Nat
deriving Repr, DecidableEq

/-- Ledger state right after VisualLeakDetector construction. -/
def initState : LedgerState :=
  { heapMap := [], curAlloc := 0, totalAlloc := 0, maxAlloc := 0, requestCurr := 1 }

/-- First-match association-list lookup (Map::find). -/
def alookup {α : Type} (l : List (Nat × α)) (k : Nat) : Option α :=
  match l with
  | [] => none
  | (k', v) :: rest => if k' = k then some v else alookup rest k

/-- Remove the first entry with the given key (Map::erase). -/
def aerase {α : Type} (l : List (Nat × α)) (k : Nat) : List (Nat × α) :=
  match l with
  | [] => []
  | (k', v) :: rest => if k' = k then rest else (k', v) :: aerase rest k

/-- Replace the value of the first entry with the given key. -/
def aupdate {α : Type} (l : List (Nat × α)) (k : Nat) (v : α) : List (Nat × α) :=
  match l with
  | [] => []
  | (k', v') :: rest => if k' = k then (k', v) :: rest else (k', v') :: aupdate rest k v

/-- Sum of the size fields of one BlockMap, in iteration order. -/
def blockMapSizes (bm : BlockMap) : Nat :=
  (bm.map (fun p => p.2.size)).sum

/-- Sum of the size fields of every BlockInfo across the whole heap map. -/
def sumSizes (hm : HeapMap) : Nat :=
  (hm.map (fun h => blockMapSizes h.2)).sum

/-- VisualLeakDetector::unmapHeap: frees every BlockInfo owned by the heap
(subtracting each size from m_curAlloc in iteration order) and removes the
heap record.  An unknown heap is ignored. -/
def unmapHeap (s : LedgerState) (heap : Nat) : LedgerState :=
  match alookup s.heapMap heap with
  | none => s
  | some bm =>
      { s with
        curAlloc := bm.foldl (fun c p => wsub c p.2.size) s.curAlloc,
        heapMap := aerase s.heapMap heap }

/-- VisualLeakDetector::mapHeap: registers a fresh empty BlockMap for the
heap handle; a colliding handle is reported, the stale record evicted via
unmapHeap, and the fresh record inserted. -/
def mapHeap (s : LedgerState) (heap : Nat) : LedgerState × List ReportEvent :=
  match alookup s.heapMap heap with
  | none => ({ s with heapMap := s.heapMap ++ [(heap, [])] }, [])
  | some _ =>
      let s1 := unmapHeap s heap
      ({ s1 with heapMap := s1.heapMap ++ [(heap, [])] },
       [.duplicateHeapWarning heap])

/-- VisualLeakDetector::mapBlock: records a new BlockInfo (reported flag
false, no call stack yet), bumps the running counters (m_totalAlloc with an
explicit saturation check, m_curAlloc with plain SIZE_T arithmetic,
m_maxAlloc as the running peak of m_curAlloc), maps the heap on first
sight, and inserts the record keyed by address; if the address is already
occupied the stale record's size is taken back out of m_curAlloc, the
discrepancy is reported, and the stale record is deleted and replaced.
newBlockInfo is the record mapBlock fills in before insertion. -/
def newBlockInfo (serial size tid : Nat) (d u : Bool) : BlockInfo :=
  { threadId := tid, serialNumber := serial, size := size, reported := false,
    debugCrtAlloc := d, ucrt := u, callStack := none }

/-- See newBlockInfo: this is VisualLeakDetector::mapBlock itself. -/
def mapBlock (s : LedgerState) (heap mem size0 : Nat)
    (debugcrtalloc ucrt : Bool) (threadId : Nat) :
    LedgerState × BlockInfo × List ReportEvent :=
  let size := size0 % W
  let blockinfo : BlockInfo :=
    newBlockInfo s.requestCurr size threadId debugcrtalloc ucrt
  let requestCurr := (s.requestCurr + 1) % W
  let totalAlloc :=
    if SIZE_MAX - s.totalAlloc > size then s.totalAlloc + size else SIZE_MAX
  let curAlloc := wadd s.curAlloc size
  let maxAlloc := if curAlloc > s.maxAlloc then curAlloc else s.maxAlloc
  let hm :=
    match alookup s.heapMap heap with
    | some _ => s.heapMap
    | none => s.heapMap ++ [(heap, [])]
  let bm := (alookup hm heap).getD []
  match alookup bm mem with
  | none =>
      ({ heapMap := aupdate hm heap (bm ++ [(mem, blockinfo)]),
         curAlloc := curAlloc, totalAlloc := totalAlloc,
         maxAlloc := maxAlloc, requestCurr := requestCurr },
       blockinfo, [])
  | some info =>
      ({ heapMap := aupdate hm heap (aerase bm mem ++ [(mem, blockinfo)]),
         curAlloc := wsub curAlloc info.size, totalAlloc := totalAlloc,
         maxAlloc := maxAlloc, requestCurr := requestCurr },
       blockinfo,
       [.duplicateAddressWarning mem info.size size])

/-- VisualLeakDetector::findAllocedBlock: scan every heap in order and
return the first block record keyed by the address, together with its
owning heap handle. -/
def findAllocedBlock (hm : HeapMap) (mem : Nat) : Option (Nat × BlockInfo) :=
  match hm with
  | [] => none
  | (h, bm) :: rest =>
      match alookup bm mem with
      | some b => some (h, b)
      | none => findAllocedBlock rest mem

/-- VisualLeakDetector::unmapBlock: a null pointer or an unknown heap
returns immediately; a tracked address has its size taken out of m_curAlloc
and its record deleted; a miss inside a known heap is silently ignored
unless VLD_OPT_VALIDATE_HEAPFREE is set, in which case every heap is
scanned and a cross-heap free (block found on a different heap, with a
captured allocation stack) is reported with both call stacks. -/
def unmapBlock (o : Opts) (e : Env) (s : LedgerState) (heap mem : Nat)
    (ctx : ContextT) : LedgerState × List ReportEvent :=
  if mem = 0 then (s, [])
  else
    match alookup s.heapMap heap with
    | none => (s, [])
    | some bm =>
        match alookup bm mem with
        | none =>
            if o.validateHeapFree then
              match findAllocedBlock s.heapMap mem with
              | some (otherHeap, b) =>
                  if b.callStack.isSome ∧ otherHeap ≠ heap then
                    (s, [.crossHeapError b.serialNumber mem b.size b.threadId
                          (b.callStack.getD []) (e.captureStack ctx)])
                  else (s, [])
              | none => (s, [])
            else (s, [])
        | some info =>
            ({ s with curAlloc := wsub s.curAlloc info.size,
                      heapMap := aupdate s.heapMap heap (aerase bm mem) }, [])

/-- The in-place update remapBlock applies to an existing record: the old
call stack is discarded, the thread id and size are overwritten, every
other field is kept. -/
def remapInfo (info : BlockInfo) (tid size : Nat) : BlockInfo :=
  { info with callStack := none, threadId := tid, size := size }

/-- VisualLeakDetector::remapBlock: an address change is unmap of the old
address followed by map of the new one; an unknown heap or untracked old
address degenerates to a plain map; an in-place reallocation discards the
previously captured call stack, adjusts m_totalAlloc (with its sticky
saturation guard), m_curAlloc and m_maxAlloc, and overwrites the thread id
and size of the existing record. -/
def remapBlock (o : Opts) (e : Env) (s : LedgerState)
    (mem newmem : Nat) (heap size0 : Nat) (debugcrtalloc ucrt : Bool)
    (threadId : Nat) (ctx : ContextT) :
    LedgerState × BlockInfo × List ReportEvent :=
  if newmem ≠ mem then
    let (s1, ev1) := unmapBlock o e s heap mem ctx
    let (s2, bi, ev2) := mapBlock s1 heap newmem size0 debugcrtalloc ucrt threadId
    (s2, bi, ev1 ++ ev2)
  else
    match alookup s.heapMap heap with
    | none => mapBlock s heap newmem size0 debugcrtalloc ucrt threadId
    | some bm =>
        match alookup bm mem with
        | none => mapBlock s heap newmem size0 debugcrtalloc ucrt threadId
        | some info =>
            let size := size0 % W
            let info2 := remapInfo info threadId size
            let totalAlloc :=
              if s.totalAlloc < SIZE_MAX then
                let t := wsub s.totalAlloc info.size
                if SIZE_MAX - t > size then t + size else SIZE_MAX
              else s.totalAlloc
            let curAlloc := wadd (wsub s.curAlloc info.size) size
            let maxAlloc := if curAlloc > s.maxAlloc then curAlloc else s.maxAlloc
            ({ s with heapMap := aupdate s.heapMap heap (aupdate bm mem info2),
                      curAlloc := curAlloc, totalAlloc := totalAlloc,
                      maxAlloc := maxAlloc },
             info2, [])

/-- One ledger operation of the kind quantified over by the accounting
invariant. -/
inductive Op
  | map (heap mem size : Nat) (dcrt ucrt : Bool) (tid : Nat)
  | unmap (heap mem : Nat)
  | remap (heap mem newmem size : Nat) (dcrt ucrt : Bool) (tid : Nat)
  | unmapHp (heap : Nat)
deriving Repr, DecidableEq

/-- The heap handle an operation addresses. -/
def Op.heap : Op → Nat
  | .map h _ _ _ _ _ => h
  | .unmap h _ => h
  | .remap h _ _ _ _ _ _ => h
  | .unmapHp h => h

/-- Apply one ledger operation (events discarded; the diagnostic context of
a free does not influence the ledger state). -/
def runOp (o : Opts) (e : Env) (s : LedgerState) : Op → LedgerState
  | .map heap mem size dcrt ucrt tid =>
      (mapBlock s heap mem size dcrt ucrt tid).1
  | .unmap heap mem => (unmapBlock o e s heap mem ⟨0, 0⟩).1
  | .remap heap mem newmem size dcrt ucrt tid =>
      (remapBlock o e s mem newmem heap size dcrt ucrt tid ⟨0, 0⟩).1
  | .unmapHp heap => unmapHeap s heap

/-- Run a sequence of ledger operations from the freshly initialized
detector state. -/
def runOps (o : Opts) (e : Env) (ops : List Op) : LedgerState :=
  ops.foldl (runOp o e) initState

end VLD

namespace VLD

/-! ### Association-list and size-accounting lemmas -/

theorem W_pos : 0 < W := by decide

theorem alookup_mem {α : Type} {l : List (Nat × α)} {k : Nat} {v : α}
    (h : alookup l k = some v) : (k, v) ∈ l := by
  induction l with
  | nil => simp [alookup] at h
  | cons p rest ih =>
      obtain ⟨k', v'⟩ := p
      by_cases hk : k' = k
      · subst hk
        simp [alookup] at h
        subst h
        exact List.mem_cons_self _ _
      · simp [alookup, hk] at h
        exact List.mem_cons_of_mem _ (ih h)

theorem mem_aerase {α : Type} {l : List (Nat × α)} {k : Nat} {p : Nat × α}
    (h : p ∈ aerase l k) : p ∈ l := by
  induction l with
  | nil => simp [aerase] at h
  | cons q rest ih =>
      obtain ⟨k', v'⟩ := q
      by_cases hk : k' = k
      · subst hk
        simp [aerase] at h
        exact List.mem_cons_of_mem _ h
      · simp [aerase, hk] at h
        rcases h with h | h
        · exact h ▸ List.mem_cons_self _ _
        · exact List.mem_cons_of_mem _ (ih h)

theorem mem_aupdate {α : Type} {l : List (Nat × α)} {k : Nat} {v : α}
    {p : Nat × α} (h : p ∈ aupdate l k v) : p ∈ l ∨ p = (k, v) := by
  induction l with
  | nil => simp [aupdate] at h
  | cons q rest ih =>
      obtain ⟨k', v'⟩ := q
      by_cases hk : k' = k
      · subst hk
        simp [aupdate] at h
        rcases h with h | h
        · right; simp [h]
        · left; exact List.mem_cons_of_mem _ h
      · simp [aupdate, hk] at h
        rcases h with h | h
        · left; exact h ▸ List.mem_cons_self _ _
        · rcases ih h with h2 | h2
          · left; exact List.mem_cons_of_mem _ h2
          · right; exact h2

theorem wadd_sum (S b : Nat) : wadd (S % W) b = (S + b) % W := by
  unfold wadd
  exact Nat.mod_add_mod S W b

theorem wsub_sum (S b : Nat) (hb : b < W) (hle : b ≤ S) :
    wsub (S % W) b = (S - b) % W := by
  unfold wsub
  rw [Nat.mod_mod_of_dvd S (dvd_refl W), Nat.mod_eq_of_lt hb,
    Nat.mod_add_mod]
  have h1 : S + (W - b) = (S - b) + W := by omega
  rw [h1, Nat.add_mod_right]

theorem wsub_lt (a b : Nat) : wsub a b < W :=
  Nat.mod_lt _ W_pos

theorem wadd_lt (a b : Nat) : wadd a b < W :=
  Nat.mod_lt _ W_pos

theorem blockMapSizes_append (a b : BlockMap) :
    blockMapSizes (a ++ b) = blockMapSizes a + blockMapSizes b := by
  simp [blockMapSizes]

theorem blockMapSizes_aerase {bm : BlockMap} {mem : Nat} {old : BlockInfo}
    (h : alookup bm mem = some old) :
    blockMapSizes (aerase bm mem) + old.size = blockMapSizes bm := by
  induction bm with
  | nil => simp [alookup] at h
  | cons p rest ih =>
      obtain ⟨k, v⟩ := p
      by_cases hk : k = mem
      · subst hk
        simp [alookup] at h
        subst h
        simp [aerase, blockMapSizes]
        omega
      · simp [alookup, hk] at h
        have hih := ih h
        simp [aerase, hk, blockMapSizes] at hih ⊢
        omega

theorem blockMapSizes_aupdate {bm : BlockMap} {mem : Nat} {old : BlockInfo}
    (v : BlockInfo) (h : alookup bm mem = some old) :
    blockMapSizes (aupdate bm mem v) + old.size = blockMapSizes bm + v.size := by
  induction bm with
  | nil => simp [alookup] at h
  | cons p rest ih =>
      obtain ⟨k, w⟩ := p
      by_cases hk : k = mem
      · subst hk
        simp [alookup] at h
        subst h
        simp [aupdate, blockMapSizes]
        omega
      · simp [alookup, hk] at h
        have hih := ih h
        simp [aupdate, hk, blockMapSizes] at hih ⊢
        omega

theorem sumSizes_append_single (hm : HeapMap) (k : Nat) (bm : BlockMap) :
    sumSizes (hm ++ [(k, bm)]) = sumSizes hm + blockMapSizes bm := by
  simp [sumSizes]

theorem sumSizes_aupdate {hm : HeapMap} {k : Nat} {bm : BlockMap}
    (bm' : BlockMap) (h : alookup hm k = some bm) :
    sumSizes (aupdate hm k bm') + blockMapSizes bm
      = sumSizes hm + blockMapSizes bm' := by
  induction hm with
  | nil => simp [alookup] at h
  | cons p rest ih =>
      obtain ⟨k', v⟩ := p
      by_cases hk : k' = k
      · subst hk
        simp [alookup] at h
        subst h
        simp [aupdate, sumSizes]
        omega
      · simp [alookup, hk] at h
        have hih := ih h
        simp [aupdate, hk, sumSizes] at hih ⊢
        omega

theorem sumSizes_aerase {hm : HeapMap} {k : Nat} {bm : BlockMap}
    (h : alookup hm k = some bm) :
    sumSizes (aerase hm k) + blockMapSizes bm = sumSizes hm := by
  induction hm with
  | nil => simp [alookup] at h
  | cons p rest ih =>
      obtain ⟨k', v⟩ := p
      by_cases hk : k' = k
      · subst hk
        simp [alookup] at h
        subst h
        simp [aerase, sumSizes]
        omega
      · simp [alookup, hk] at h
        have hih := ih h
        simp [aerase, hk, sumSizes] at hih ⊢
        omega

theorem alookup_append_of_none {α : Type} {hm : List (Nat × α)} {k : Nat}
    (h : alookup hm k = none) (v : α) :
    alookup (hm ++ [(k, v)]) k = some v := by
  induction hm with
  | nil => simp [alookup]
  | cons p rest ih =>
      obtain ⟨k', v'⟩ := p
      by_cases hk : k' = k
      · simp [alookup, hk] at h
      · simp [alookup, hk] at h ⊢
        exact ih h

theorem blockMapSizes_le_sumSizes {hm : HeapMap} {k : Nat} {bm : BlockMap}
    (h : alookup hm k = some bm) : blockMapSizes bm ≤ sumSizes hm := by
  have hmem := alookup_mem h
  have : blockMapSizes bm ∈ hm.map (fun h => blockMapSizes h.2) :=
    List.mem_map.mpr ⟨(k, bm), hmem, rfl⟩
  exact List.single_le_sum (fun x _ => Nat.zero_le x) _ this

theorem size_le_blockMapSizes {bm : BlockMap} {mem : Nat} {b : BlockInfo}
    (h : alookup bm mem = some b) : b.size ≤ blockMapSizes bm := by
  have hmem := alookup_mem h
  have : b.size ∈ bm.map (fun p => p.2.size) :=
    List.mem_map.mpr ⟨(mem, b), hmem, rfl⟩
  exact List.single_le_sum (fun x _ => Nat.zero_le x) _ this

/-- All recorded sizes are genuine SIZE_T values. -/
def sizesOk (hm : HeapMap) : Prop :=
  ∀ p ∈ hm, ∀ q ∈ p.2, (q : Nat × BlockInfo).2.size < W

/-- The online accounting invariant: the current-live-bytes counter is
exactly the SIZE_T reduction of the sum of all recorded sizes. -/
def Inv (s : LedgerState) : Prop :=
  sizesOk s.heapMap ∧ s.curAlloc = sumSizes s.heapMap % W

theorem inv_init : Inv initState := by
  constructor
  · intro p hp
    simp [initState] at hp
  · simp [initState, sumSizes]

theorem sizesOk_aerase {hm : HeapMap} {k : Nat} (h : sizesOk hm) :
    sizesOk (aerase hm k) :=
  fun p hp => h p (mem_aerase hp)


theorem blockMapSizes_single (a : Nat) (b : BlockInfo) :
    blockMapSizes [(a, b)] = b.size := by
  simp [blockMapSizes]

theorem remapInfo_size (info : BlockInfo) (tid sz : Nat) :
    (remapInfo info tid sz).size = sz := rfl

theorem newBlockInfo_size (serial size tid : Nat) (d u : Bool) :
    (newBlockInfo serial size tid d u).size = size := rfl

theorem mapBlock_inv (s : LedgerState) (heap mem size0 : Nat) (d u : Bool)
    (tid : Nat) (h : Inv s) : Inv (mapBlock s heap mem size0 d u tid).1 := by
  obtain ⟨hsz, hcur⟩ := h
  have hszlt : size0 % W < W := Nat.mod_lt _ W_pos
  rcases hh : alookup s.heapMap heap with _ | bm
  · -- unseen heap: a fresh empty block map is appended, then updated
    have hlk := alookup_append_of_none hh ([] : BlockMap)
    have hup := sumSizes_aupdate
      [(mem, newBlockInfo s.requestCurr (size0 % W) tid d u)] hlk
    rw [sumSizes_append_single, blockMapSizes_single, newBlockInfo_size] at hup
    simp only [blockMapSizes, List.map_nil, List.sum_nil, Nat.add_zero] at hup
    simp only [mapBlock, hh, hlk, Option.getD_some, alookup, List.nil_append]
    constructor
    · intro p hp q hq
      rcases mem_aupdate hp with h3 | h3
      · rcases List.mem_append.mp h3 with h4 | h4
        · exact hsz p h4 q hq
        · simp only [List.mem_singleton] at h4
          rw [h4] at hq
          simp at hq
      · rw [h3] at hq
        simp only [List.mem_singleton] at hq
        rw [hq, newBlockInfo_size]
        exact hszlt
    · simp only [LedgerState.curAlloc, LedgerState.heapMap]
      rw [hup, hcur, wadd_sum]
  · rcases hbm : alookup bm mem with _ | old
    · -- known heap, fresh address: append the record
      have hup := sumSizes_aupdate
        (bm ++ [(mem, newBlockInfo s.requestCurr (size0 % W) tid d u)]) hh
      rw [blockMapSizes_append, blockMapSizes_single, newBlockInfo_size] at hup
      simp only [mapBlock, hh, hbm, Option.getD_some]
      constructor
      · intro p hp q hq
        rcases mem_aupdate hp with h3 | h3
        · exact hsz p h3 q hq
        · rw [h3] at hq
          rcases List.mem_append.mp hq with h4 | h4
          · exact hsz _ (alookup_mem hh) q h4
          · simp only [List.mem_singleton] at h4
            rw [h4, newBlockInfo_size]
            exact hszlt
      · simp only [LedgerState.curAlloc, LedgerState.heapMap]
        rw [hcur, wadd_sum]
        congr 1
        omega
    · -- address collision: stale record evicted, fresh record appended
      have holdlt : old.size < W := hsz _ (alookup_mem hh) _ (alookup_mem hbm)
      have holdle : old.size ≤ sumSizes s.heapMap :=
        le_trans (size_le_blockMapSizes hbm) (blockMapSizes_le_sumSizes hh)
      have hup := sumSizes_aupdate
        (aerase bm mem ++ [(mem, newBlockInfo s.requestCurr (size0 % W) tid d u)]) hh
      rw [blockMapSizes_append, blockMapSizes_single, newBlockInfo_size] at hup
      have her := blockMapSizes_aerase hbm
      simp only [mapBlock, hh, hbm, Option.getD_some]
      constructor
      · intro p hp q hq
        rcases mem_aupdate hp with h3 | h3
        · exact hsz p h3 q hq
        · rw [h3] at hq
          rcases List.mem_append.mp hq with h4 | h4
          · exact hsz _ (alookup_mem hh) q (mem_aerase h4)
          · simp only [List.mem_singleton] at h4
            rw [h4, newBlockInfo_size]
            exact hszlt
      · simp only [LedgerState.curAlloc, LedgerState.heapMap]
        rw [hcur, wadd_sum, wsub_sum _ _ holdlt (by omega)]
        congr 1
        omega

theorem unmapBlock_inv (o : Opts) (e : Env) (s : LedgerState) (heap mem : Nat)
    (ctx : ContextT) (h : Inv s) : Inv (unmapBlock o e s heap mem ctx).1 := by
  obtain ⟨hsz, hcur⟩ := h
  by_cases hmem : mem = 0
  · simpa [unmapBlock, hmem] using And.intro hsz hcur
  rcases hh : alookup s.heapMap heap with _ | bm
  · simpa [unmapBlock, hmem, hh] using And.intro hsz hcur
  rcases hbm : alookup bm mem with _ | info
  · -- untracked address: the ledger is never mutated on this path
    rcases hv : o.validateHeapFree with _ | _
    · simpa [unmapBlock, hmem, hh, hbm, hv] using And.intro hsz hcur
    · rcases hf : findAllocedBlock s.heapMap mem with _ | p
      · simpa [unmapBlock, hmem, hh, hbm, hv, hf] using And.intro hsz hcur
      · by_cases hd : p.2.callStack.isSome ∧ p.1 ≠ heap
        · simpa [unmapBlock, hmem, hh, hbm, hv, hf, hd] using
            And.intro hsz hcur
        · simpa [unmapBlock, hmem, hh, hbm, hv, hf, hd] using
            And.intro hsz hcur
  · -- tracked address: size removed from the counter, record erased
    have hlt : info.size < W := hsz _ (alookup_mem hh) _ (alookup_mem hbm)
    have hle : info.size ≤ sumSizes s.heapMap :=
      le_trans (size_le_blockMapSizes hbm) (blockMapSizes_le_sumSizes hh)
    have hup := sumSizes_aupdate (aerase bm mem) hh
    have her := blockMapSizes_aerase hbm
    simp only [unmapBlock, hmem, hh, hbm, if_neg hmem]
    constructor
    · intro p hp q hq
      rcases mem_aupdate hp with h3 | h3
      · exact hsz p h3 q hq
      · rw [h3] at hq
        exact hsz _ (alookup_mem hh) q (mem_aerase hq)
    · have hkey : sumSizes (aupdate s.heapMap heap (aerase bm mem))
          = sumSizes s.heapMap - info.size := by omega
      show wsub s.curAlloc info.size
          = sumSizes (aupdate s.heapMap heap (aerase bm mem)) % W
      rw [hcur, wsub_sum _ _ hlt hle, hkey]

theorem foldl_wsub (bm : BlockMap) (S : Nat)
    (hok : ∀ q ∈ bm, (q : Nat × BlockInfo).2.size < W)
    (hle : blockMapSizes bm ≤ S) :
    bm.foldl (fun c p => wsub c p.2.size) (S % W)
      = (S - blockMapSizes bm) % W := by
  induction bm generalizing S with
  | nil => simp [blockMapSizes]
  | cons b rest ih =>
      have hb : b.2.size < W := hok b (List.mem_cons_self _ _)
      have hbs : blockMapSizes (b :: rest) = b.2.size + blockMapSizes rest := by
        simp [blockMapSizes]
      have h1 : b.2.size ≤ S := by omega
      simp only [List.foldl_cons]
      rw [wsub_sum S b.2.size hb h1,
        ih (S - b.2.size) (fun q hq => hok q (List.mem_cons_of_mem _ hq))
          (by omega)]
      congr 1
      omega

theorem unmapHeap_inv (s : LedgerState) (heap : Nat) (h : Inv s) :
    Inv (unmapHeap s heap) := by
  obtain ⟨hsz, hcur⟩ := h
  rcases hh : alookup s.heapMap heap with _ | bm
  · simpa [unmapHeap, hh] using And.intro hsz hcur
  have hok : ∀ q ∈ bm, (q : Nat × BlockInfo).2.size < W :=
    fun q hq => hsz _ (alookup_mem hh) q hq
  have hle : blockMapSizes bm ≤ sumSizes s.heapMap := blockMapSizes_le_sumSizes hh
  have her := sumSizes_aerase hh
  simp only [unmapHeap, hh]
  constructor
  · intro p hp q hq
    exact hsz p (mem_aerase hp) q hq
  · simp only [LedgerState.curAlloc, LedgerState.heapMap]
    rw [hcur, foldl_wsub bm _ hok hle]
    congr 1
    omega

theorem remapBlock_inv (o : Opts) (e : Env) (s : LedgerState)
    (mem newmem heap size0 : Nat) (d u : Bool) (tid : Nat) (ctx : ContextT)
    (h : Inv s) : Inv (remapBlock o e s mem newmem heap size0 d u tid ctx).1 := by
  by_cases hne : newmem ≠ mem
  · simp only [remapBlock, if_pos hne]
    exact mapBlock_inv _ _ _ _ _ _ _ (unmapBlock_inv o e s heap mem ctx h)
  obtain ⟨hsz, hcur⟩ := h
  have hszlt : size0 % W < W := Nat.mod_lt _ W_pos
  rcases hh : alookup s.heapMap heap with _ | bm
  · simp only [remapBlock, if_neg hne, hh]
    exact mapBlock_inv _ _ _ _ _ _ _ ⟨hsz, hcur⟩
  rcases hbm : alookup bm mem with _ | info
  · simp only [remapBlock, if_neg hne, hh, hbm]
    exact mapBlock_inv _ _ _ _ _ _ _ ⟨hsz, hcur⟩
  -- in-place reallocation
  have hlt : info.size < W := hsz _ (alookup_mem hh) _ (alookup_mem hbm)
  have hle : info.size ≤ sumSizes s.heapMap :=
    le_trans (size_le_blockMapSizes hbm) (blockMapSizes_le_sumSizes hh)
  have hup := sumSizes_aupdate (aupdate bm mem (remapInfo info tid (size0 % W))) hh
  have hbu := blockMapSizes_aupdate (remapInfo info tid (size0 % W)) hbm
  simp only [remapBlock, if_neg hne, hh, hbm]
  constructor
  · intro p hp q hq
    rcases mem_aupdate hp with h3 | h3
    · exact hsz p h3 q hq
    · rw [h3] at hq
      rcases mem_aupdate hq with h4 | h4
      · exact hsz _ (alookup_mem hh) q h4
      · rw [h4]
        exact hszlt
  · have hbu2 := hbu
    rw [remapInfo_size] at hbu2
    have hkey : sumSizes (aupdate s.heapMap heap
          (aupdate bm mem (remapInfo info tid (size0 % W))))
        = sumSizes s.heapMap - info.size + size0 % W := by omega
    show wadd (wsub s.curAlloc info.size) (size0 % W)
        = sumSizes (aupdate s.heapMap heap
            (aupdate bm mem (remapInfo info tid (size0 % W)))) % W
    rw [hcur, wsub_sum _ _ hlt hle, wadd_sum, hkey]

theorem runOp_inv (o : Opts) (e : Env) (s : LedgerState) (op : Op)
    (h : Inv s) : Inv (runOp o e s op) := by
  cases op with
  | map heap mem size dcrt ucrt tid => exact mapBlock_inv _ _ _ _ _ _ _ h
  | unmap heap mem => exact unmapBlock_inv _ _ _ _ _ _ h
  | remap heap mem newmem size dcrt ucrt tid =>
      exact remapBlock_inv _ _ _ _ _ _ _ _ _ _ _ h
  | unmapHp heap => exact unmapHeap_inv _ _ h

theorem runOps_inv (o : Opts) (e : Env) (ops : List Op) :
    Inv (runOps o e ops) := by
  have main : ∀ (l : List Op) (s : LedgerState), Inv s →
      Inv (l.foldl (runOp o e) s) := by
    intro l
    induction l with
    | nil => intro s hs; exact hs
    | cons op rest ih =>
        intro s hs
        exact ih _ (runOp_inv o e s op hs)
  exact main ops initState inv_init

/-- Shape of a ledger driven against a single heap handle: the heap map is
empty or holds exactly that heap's record. -/
def SingleHeap (hp : Nat) (s : LedgerState) : Prop :=
  s.heapMap = [] ∨ ∃ bm, s.heapMap = [(hp, bm)]

theorem mapBlock_singleHeap (s : LedgerState) (hp mem size0 : Nat)
    (d u : Bool) (tid : Nat) (h : SingleHeap hp s) :
    SingleHeap hp (mapBlock s hp mem size0 d u tid).1 := by
  rcases h with h1 | ⟨bm, h1⟩
  · right
    exact ⟨[(mem, newBlockInfo s.requestCurr (size0 % W) tid d u)],
      by simp [mapBlock, h1, alookup, aupdate]⟩
  · right
    rcases hbm : alookup bm mem with _ | old
    · exact ⟨bm ++ [(mem, newBlockInfo s.requestCurr (size0 % W) tid d u)],
        by simp [mapBlock, h1, alookup, aupdate, hbm]⟩
    · exact ⟨aerase bm mem ++
          [(mem, newBlockInfo s.requestCurr (size0 % W) tid d u)],
        by simp [mapBlock, h1, alookup, aupdate, hbm]⟩

theorem unmapBlock_singleHeap (o : Opts) (e : Env) (s : LedgerState)
    (hp mem : Nat) (ctx : ContextT) (h : SingleHeap hp s) :
    SingleHeap hp (unmapBlock o e s hp mem ctx).1 := by
  by_cases hmem : mem = 0
  · simpa [unmapBlock, hmem] using h
  rcases h with h1 | ⟨bm, h1⟩
  · left
    simp [unmapBlock, hmem, h1, alookup]
  · have hl : alookup s.heapMap hp = some bm := by simp [h1, alookup]
    rcases hbm : alookup bm mem with _ | info
    · have hid : (unmapBlock o e s hp mem ctx).1 = s := by
        rcases hv : o.validateHeapFree with _ | _
        · simp [unmapBlock, hmem, hl, hbm, hv]
        · rcases hf : findAllocedBlock s.heapMap mem with _ | p
          · simp [unmapBlock, hmem, hl, hbm, hv, hf]
          · obtain ⟨ph, pb⟩ := p
            simp only [unmapBlock, hmem, hl, hbm, hv, hf, if_neg hmem,
              if_true]
            split
            · rfl
            · split
              · rfl
              · rfl
      rw [hid]
      exact Or.inr ⟨bm, h1⟩
    · right
      exact ⟨aerase bm mem, by simp [unmapBlock, hmem, h1, alookup, aupdate, hbm]⟩

theorem unmapHeap_singleHeap (s : LedgerState) (hp : Nat)
    (h : SingleHeap hp s) : SingleHeap hp (unmapHeap s hp) := by
  rcases h with h1 | ⟨bm, h1⟩
  · left; simp [unmapHeap, h1, alookup]
  · left; simp [unmapHeap, h1, alookup, aerase]

theorem remapBlock_singleHeap (o : Opts) (e : Env) (s : LedgerState)
    (mem newmem hp size0 : Nat) (d u : Bool) (tid : Nat) (ctx : ContextT)
    (h : SingleHeap hp s) :
    SingleHeap hp (remapBlock o e s mem newmem hp size0 d u tid ctx).1 := by
  by_cases hne : newmem ≠ mem
  · simp only [remapBlock, if_pos hne]
    exact mapBlock_singleHeap _ _ _ _ _ _ _
      (unmapBlock_singleHeap o e s hp mem ctx h)
  rcases h with h1 | ⟨bm, h1⟩
  · have : alookup s.heapMap hp = none := by simp [h1, alookup]
    simp only [remapBlock, if_neg hne, this]
    exact mapBlock_singleHeap _ _ _ _ _ _ _ (Or.inl h1)
  · have hl : alookup s.heapMap hp = some bm := by simp [h1, alookup]
    rcases hbm : alookup bm mem with _ | info
    · simp only [remapBlock, if_neg hne, hl, hbm]
      exact mapBlock_singleHeap _ _ _ _ _ _ _ (Or.inr ⟨bm, h1⟩)
    · right
      exact ⟨aupdate bm mem (remapInfo info tid (size0 % W)),
        by simp [remapBlock, if_neg hne, hl, hbm, h1, alookup, aupdate]⟩

theorem runOps_singleHeap (o : Opts) (e : Env) (ops : List Op) (hp : Nat)
    (hops : ∀ op ∈ ops, op.heap = hp) : SingleHeap hp (runOps o e ops) := by
  have main : ∀ (l : List Op), (∀ op ∈ l, op.heap = hp) →
      ∀ (s : LedgerState), SingleHeap hp s →
      SingleHeap hp (l.foldl (runOp o e) s) := by
    intro l
    induction l with
    | nil => intro _ s hs; exact hs
    | cons op rest ih =>
        intro hl s hs
        refine ih (fun x hx => hl x (List.mem_cons_of_mem _ hx)) _ ?_
        have hop := hl op (List.mem_cons_self _ _)
        cases op with
        | map heap mem size dcrt ucrt tid =>
            cases hop
            exact mapBlock_singleHeap _ _ _ _ _ _ _ hs
        | unmap heap mem =>
            cases hop
            exact unmapBlock_singleHeap _ _ _ _ _ _ hs
        | remap heap mem newmem size dcrt ucrt tid =>
            cases hop
            exact remapBlock_singleHeap _ _ _ _ _ _ _ _ _ _ _ hs
        | unmapHp heap =>
            cases hop
            exact unmapHeap_singleHeap _ _ hs
  exact main ops hops initState (Or.inl rfl)

/-- A benign environment: no CRT header validates anywhere and no call
stack classifies as CRT-startup. -/
def envDefault : Env :=
  { crtDetect := fun _ _ => none, crtUse := fun _ _ => 0,
    crtSize := fun _ _ => 0, crtData := fun a => a,
    isCrtStartup := fun _ => false, captureStack := fun _ => [] }

/-- All modelled option bits clear. -/
def optsDefault : Opts :=
  { aggregateDuplicates := false, skipCrtStartupLeaks := false,
    validateHeapFree := false, vldOff := false, traceInternalFrames := false }

theorem mapBlock_totalAlloc (s : LedgerState) (heap mem size0 : Nat)
    (d u : Bool) (tid : Nat) :
    (mapBlock s heap mem size0 d u tid).1.totalAlloc
      = if SIZE_MAX - s.totalAlloc > size0 % W then s.totalAlloc + size0 % W
        else SIZE_MAX := by
  rcases hh : alookup s.heapMap heap with _ | bm
  · have hlk := alookup_append_of_none hh ([] : BlockMap)
    simp [mapBlock, hh, hlk, alookup]
  · rcases hbm : alookup bm mem with _ | old
    · simp [mapBlock, hh, hbm]
    · simp [mapBlock, hh, hbm]

theorem unmapBlock_totalAlloc (o : Opts) (e : Env) (s : LedgerState)
    (heap mem : Nat) (ctx : ContextT) :
    (unmapBlock o e s heap mem ctx).1.totalAlloc = s.totalAlloc := by
  by_cases hmem : mem = 0
  · simp [unmapBlock, hmem]
  rcases hh : alookup s.heapMap heap with _ | bm
  · simp [unmapBlock, hmem, hh]
  rcases hbm : alookup bm mem with _ | info
  · rcases hv : o.validateHeapFree with _ | _
    · simp [unmapBlock, hmem, hh, hbm, hv]
    · rcases hf : findAllocedBlock s.heapMap mem with _ | p
      · simp [unmapBlock, hmem, hh, hbm, hv, hf]
      · obtain ⟨ph, pb⟩ := p
        simp only [unmapBlock, hmem, hh, hbm, hv, hf, if_neg hmem, if_true]
        split
        · rfl
        · split
          · rfl
          · rfl
  · simp [unmapBlock, hmem, hh, hbm]

theorem unmapHeap_totalAlloc (s : LedgerState) (heap : Nat) :
    (unmapHeap s heap).totalAlloc = s.totalAlloc := by
  rcases hh : alookup s.heapMap heap with _ | bm
  · simp [unmapHeap, hh]
  · simp [unmapHeap, hh]

theorem remapBlock_totalAlloc (o : Opts) (e : Env) (s : LedgerState)
    (mem newmem heap size0 : Nat) (d u : Bool) (tid : Nat) (ctx : ContextT)
    (h : s.totalAlloc ≤ SIZE_MAX) :
    (remapBlock o e s mem newmem heap size0 d u tid ctx).1.totalAlloc
      ≤ SIZE_MAX := by
  have hszlt : size0 % W < W := Nat.mod_lt _ W_pos
  by_cases hne : newmem ≠ mem
  · simp only [remapBlock, if_pos hne]
    rw [mapBlock_totalAlloc, unmapBlock_totalAlloc]
    split
    · simp [SIZE_MAX] at *
      omega
    · exact le_refl _
  rcases hh : alookup s.heapMap heap with _ | bm
  · simp only [remapBlock, if_neg hne, hh]
    rw [mapBlock_totalAlloc]
    split
    · simp [SIZE_MAX] at *
      omega
    · exact le_refl _
  rcases hbm : alookup bm mem with _ | info
  · simp only [remapBlock, if_neg hne, hh, hbm]
    rw [mapBlock_totalAlloc]
    split
    · simp [SIZE_MAX] at *
      omega
    · exact le_refl _
  · have hw := wsub_lt s.totalAlloc info.size
    simp only [remapBlock, if_neg hne, hh, hbm]
    split
    · split
      · simp only [SIZE_MAX, W] at *
        omega
      · exact le_refl _
    · exact h

theorem runOps_totalOk (o : Opts) (e : Env) (ops : List Op) :
    (runOps o e ops).totalAlloc ≤ SIZE_MAX := by
  have main : ∀ (l : List Op) (s : LedgerState), s.totalAlloc ≤ SIZE_MAX →
      (l.foldl (runOp o e) s).totalAlloc ≤ SIZE_MAX := by
    intro l
    induction l with
    | nil => intro s hs; exact hs
    | cons op rest ih =>
        intro s hs
        refine ih _ ?_
        cases op with
        | map heap mem size dcrt ucrt tid =>
            show (mapBlock s heap mem size dcrt ucrt tid).1.totalAlloc ≤ SIZE_MAX
            rw [mapBlock_totalAlloc]
            split
            · simp only [SIZE_MAX, W] at *
              omega
            · exact le_refl _
        | unmap heap mem =>
            show (unmapBlock o e s heap mem ⟨0, 0⟩).1.totalAlloc ≤ SIZE_MAX
            rw [unmapBlock_totalAlloc]
            exact hs
        | remap heap mem newmem size dcrt ucrt tid =>
            exact remapBlock_totalAlloc _ _ _ _ _ _ _ _ _ _ _ hs
        | unmapHp heap =>
            show (unmapHeap s heap).totalAlloc ≤ SIZE_MAX
            rw [unmapHeap_totalAlloc]
            exact hs
  exact main ops initState (by simp [initState, SIZE_MAX])

/-- C1: for every sequence of mapBlock/unmapBlock/remapBlock/unmapHeap
operations, at every quiescent point (i.e. after the operations already
issued) the ledger's current-live-bytes counter m_curAlloc equals the sum
of the size fields of all BlockInfo entries present across the heap map
(the side condition says the sum is a representable SIZE_T, which holds in
every real process); restricted to operations on a single heap, it equals
that heap's sum. -/
theorem C1_curAlloc_eq_sumSizes (o : Opts) (e : Env) (ops : List Op)
    (h : sumSizes (runOps o e ops).heapMap < W) :
    (runOps o e ops).curAlloc = sumSizes (runOps o e ops).heapMap
    ∧ ∀ hp, (∀ op ∈ ops, op.heap = hp) →
        (runOps o e ops).curAlloc
          = blockMapSizes ((alookup (runOps o e ops).heapMap hp).getD []) := by
  have hinv := runOps_inv o e ops
  have hmain : (runOps o e ops).curAlloc = sumSizes (runOps o e ops).heapMap := by
    rw [hinv.2, Nat.mod_eq_of_lt h]
  refine ⟨hmain, ?_⟩
  intro hp hops
  rcases runOps_singleHeap o e ops hp hops with h1 | ⟨bm, h1⟩
  · rw [hmain, h1]
    simp [sumSizes, alookup, blockMapSizes]
  · rw [hmain, h1]
    simp [sumSizes, alookup, blockMapSizes]

/-- Concrete operation sequence for the C1 witness: two maps, one remap in
place, one unmap, one heap teardown on a second heap. -/
def opsC1 : List Op :=
  [.map 1 4096 64 false false 7, .map 1 8192 32 false false 7,
   .remap 1 4096 4096 100 false false 8, .unmap 1 8192,
   .map 2 12288 16 false false 9, .unmapHp 2]

theorem C1_curAlloc_eq_sumSizes_witness :
    sumSizes (runOps optsDefault envDefault opsC1).heapMap < W
    ∧ (runOps optsDefault envDefault opsC1).curAlloc
        = sumSizes (runOps optsDefault envDefault opsC1).heapMap :=
  ⟨by decide,
   (C1_curAlloc_eq_sumSizes optsDefault envDefault opsC1 (by decide)).1⟩

/-- Operation sequences exhibiting the wrap-around of m_curAlloc: after
opsWrap the counter sits exactly at SIZE_MAX; opsWrap1 adds one more
one-byte allocation. -/
def opsWrap : List Op :=
  [.map 1 4096 (2 ^ 63) false false 1, .map 1 8192 (2 ^ 63 - 1) false false 1]

def opsWrap1 : List Op :=
  opsWrap ++ [.map 1 12288 1 false false 1]

/-- C7 counterexample: the claim says every counter saturates at SIZE_MAX,
but after m_curAlloc reaches SIZE_MAX a further one-byte mapBlock wraps it
around to 0 instead of leaving it saturated at SIZE_MAX. -/
theorem C7_counterexample_curAlloc_wraps :
    (runOps optsDefault envDefault opsWrap).curAlloc = SIZE_MAX
    ∧ (runOps optsDefault envDefault opsWrap1).curAlloc = 0
    ∧ (0 : Nat) ≠ SIZE_MAX := by
  refine ⟨?_, ?_, by decide⟩
  · decide
  · decide

/-- C7 amended: the three counters are updated inside the mapBlock and
remapBlock bodies (under the ledger lock in the source); only the
total-allocated-bytes counter saturates at SIZE_MAX (it never exceeds it),
while the current-live-bytes counter (and therefore the peak that tracks
it) is maintained with plain wrap-around SIZE_T arithmetic. -/
theorem C7_counters_amended (o : Opts) (e : Env) (ops : List Op) :
    (runOps o e ops).totalAlloc ≤ SIZE_MAX
    ∧ (runOps o e ops).curAlloc = sumSizes (runOps o e ops).heapMap % W :=
  ⟨runOps_totalOk o e ops, (runOps_inv o e ops).2⟩

theorem alookup_aupdate_self {α : Type} {l : List (Nat × α)} {k : Nat}
    {v0 : α} (v : α) (h : alookup l k = some v0) :
    alookup (aupdate l k v) k = some v := by
  induction l with
  | nil => simp [alookup] at h
  | cons p rest ih =>
      obtain ⟨k', v'⟩ := p
      by_cases hk : k' = k
      · simp [alookup, aupdate, hk]
      · simp [alookup, aupdate, hk] at h ⊢
        exact ih h

theorem alookup_eq_none_of {α : Type} {l : List (Nat × α)} {k : Nat}
    (h : ∀ p ∈ l, (p : Nat × α).1 ≠ k) : alookup l k = none := by
  induction l with
  | nil => rfl
  | cons p rest ih =>
      obtain ⟨k', v'⟩ := p
      have hk : k' ≠ k := h (k', v') (List.mem_cons_self _ _)
      simp [alookup, hk]
      exact ih (fun q hq => h q (List.mem_cons_of_mem _ hq))

theorem aerase_keys_ne {α : Type} {l : List (Nat × α)} {k : Nat}
    (hnd : (l.map Prod.fst).Nodup) :
    ∀ p ∈ aerase l k, (p : Nat × α).1 ≠ k := by
  induction l with
  | nil => intro p hp; simp [aerase] at hp
  | cons q rest ih =>
      obtain ⟨k', v'⟩ := q
      simp only [List.map_cons, List.nodup_cons] at hnd
      by_cases hk : k' = k
      · subst hk
        intro p hp hpk
        simp only [aerase, if_pos rfl] at hp
        exact hnd.1 (hpk ▸ List.mem_map.mpr ⟨p, hp, rfl⟩)
      · intro p hp hpk
        simp only [aerase, if_neg hk] at hp
        rcases List.mem_cons.mp hp with hp2 | hp2
        · rw [hp2] at hpk
          exact hk hpk
        · exact ih hnd.2 p hp2 hpk

theorem aerase_length {α : Type} {l : List (Nat × α)} {k : Nat} {v : α}
    (h : alookup l k = some v) :
    (aerase l k).length + 1 = l.length := by
  induction l with
  | nil => simp [alookup] at h
  | cons p rest ih =>
      obtain ⟨k', v'⟩ := p
      by_cases hk : k' = k
      · simp [aerase, hk]
      · simp [alookup, hk] at h
        have hih := ih h
        simp [aerase, hk]
        omega

/-- C3 counterexample: take the tracked block at address 4096 whose
recorded thread id is 1; an in-place remapBlock (old and new address both
4096) issued with thread id 2 leaves the record with thread id 2, so the
thread id is not left unchanged as the claim states. -/
def infoC3 : BlockInfo :=
  { threadId := 1, serialNumber := 5, size := 10, reported := false,
    debugCrtAlloc := false, ucrt := false, callStack := some [70, 71] }

def stateC3 : LedgerState :=
  { heapMap := [(1, [(4096, infoC3)])], curAlloc := 10, totalAlloc := 10,
    maxAlloc := 10, requestCurr := 6 }

theorem C3_counterexample_threadId_replaced :
    infoC3.threadId = 1
    ∧ (remapBlock optsDefault envDefault stateC3 4096 4096 1 20 false false 2
        ⟨0, 0⟩).2.1.threadId = 2 := by
  exact ⟨rfl, rfl⟩

/-- C3 amended: an in-place remapBlock (identical old and new address) of a
tracked block keeps the serial number (and the reported flag), overwrites
the stored thread id with the remapping call's thread id, replaces the size
with the new size, and discards the previously captured call stack; the
updated record is the one stored back at the same address. -/
theorem C3_remapBlock_inplace (o : Opts) (e : Env) (s : LedgerState)
    (heap mem size0 : Nat) (d u : Bool) (tid : Nat) (ctx : ContextT)
    (bm : BlockMap) (info : BlockInfo)
    (hh : alookup s.heapMap heap = some bm)
    (hbm : alookup bm mem = some info) :
    (remapBlock o e s mem mem heap size0 d u tid ctx).2.1.serialNumber
        = info.serialNumber
    ∧ (remapBlock o e s mem mem heap size0 d u tid ctx).2.1.reported
        = info.reported
    ∧ (remapBlock o e s mem mem heap size0 d u tid ctx).2.1.threadId = tid
    ∧ (remapBlock o e s mem mem heap size0 d u tid ctx).2.1.size = size0 % W
    ∧ (remapBlock o e s mem mem heap size0 d u tid ctx).2.1.callStack = none
    ∧ alookup ((alookup
          (remapBlock o e s mem mem heap size0 d u tid ctx).1.heapMap
          heap).getD []) mem
        = some (remapBlock o e s mem mem heap size0 d u tid ctx).2.1 := by
  have hne : ¬mem ≠ mem := fun hcon => hcon rfl
  have hr2 : (remapBlock o e s mem mem heap size0 d u tid ctx).2.1
      = remapInfo info tid (size0 % W) := by
    simp only [remapBlock, if_neg hne, hh, hbm]
  have hr1 : (remapBlock o e s mem mem heap size0 d u tid ctx).1.heapMap
      = aupdate s.heapMap heap (aupdate bm mem (remapInfo info tid (size0 % W))) := by
    simp only [remapBlock, if_neg hne, hh, hbm]
  rw [hr1, hr2]
  refine ⟨rfl, rfl, rfl, rfl, rfl, ?_⟩
  rw [alookup_aupdate_self _ hh]
  simp only [Option.getD_some]
  exact alookup_aupdate_self _ hbm

theorem C3_remapBlock_inplace_witness :
    alookup stateC3.heapMap 1 = some [(4096, infoC3)]
    ∧ alookup [(4096, infoC3)] 4096 = some infoC3
    ∧ (remapBlock optsDefault envDefault stateC3 4096 4096 1 20 false false 2
        ⟨0, 0⟩).2.1.serialNumber = infoC3.serialNumber :=
  ⟨by decide, by decide,
   (C3_remapBlock_inplace optsDefault envDefault stateC3 1 4096 20 false
      false 2 ⟨0, 0⟩ [(4096, infoC3)] infoC3 (by decide) (by decide)).1⟩

/-- C6: a mapBlock whose address collides with a tracked entry always
replaces the stale entry: afterwards the heap's block map holds exactly one
entry at that address, carrying the freshly built record, the block map
does not grow, the stale record's size is taken back out of the
current-live-bytes counter, and a discrepancy warning is reported. -/
theorem C6_mapBlock_collision_replaces (s : LedgerState)
    (heap mem size0 : Nat) (d u : Bool) (tid : Nat)
    (bm : BlockMap) (old : BlockInfo)
    (hh : alookup s.heapMap heap = some bm)
    (hbm : alookup bm mem = some old)
    (hnd : (bm.map Prod.fst).Nodup) :
    alookup ((alookup (mapBlock s heap mem size0 d u tid).1.heapMap
          heap).getD []) mem
        = some (newBlockInfo s.requestCurr (size0 % W) tid d u)
    ∧ (((alookup (mapBlock s heap mem size0 d u tid).1.heapMap
          heap).getD []).filter (fun p => p.1 = mem)).length = 1
    ∧ ((alookup (mapBlock s heap mem size0 d u tid).1.heapMap
          heap).getD []).length = bm.length
    ∧ (mapBlock s heap mem size0 d u tid).1.curAlloc
        = wsub (wadd s.curAlloc (size0 % W)) old.size
    ∧ (mapBlock s heap mem size0 d u tid).2.2
        = [.duplicateAddressWarning mem old.size (size0 % W)] := by
  have hkeys := aerase_keys_ne (l := bm) (k := mem) hnd
  have hnone : alookup (aerase bm mem) mem = none := alookup_eq_none_of hkeys
  have hlen := aerase_length hbm
  have hA : (mapBlock s heap mem size0 d u tid).1.heapMap
      = aupdate s.heapMap heap (aerase bm mem
          ++ [(mem, newBlockInfo s.requestCurr (size0 % W) tid d u)]) := by
    simp only [mapBlock, hh, Option.getD_some, hbm]
  have hB : (mapBlock s heap mem size0 d u tid).1.curAlloc
      = wsub (wadd s.curAlloc (size0 % W)) old.size := by
    simp only [mapBlock, hh, Option.getD_some, hbm]
  have hC : (mapBlock s heap mem size0 d u tid).2.2
      = [ReportEvent.duplicateAddressWarning mem old.size (size0 % W)] := by
    simp only [mapBlock, hh, Option.getD_some, hbm]
  rw [hA, hB, hC, alookup_aupdate_self _ hh]
  simp only [Option.getD_some, and_true]
  refine ⟨alookup_append_of_none hnone _, ?_, ?_⟩
  · rw [List.filter_append]
    have hfe : (aerase bm mem).filter (fun p => decide (p.1 = mem)) = [] := by
      rw [List.filter_eq_nil]
      intro p hp
      simpa using hkeys p hp
    rw [hfe]
    simp
  · simp only [List.length_append, List.length_cons, List.length_nil]
    omega

theorem C6_mapBlock_collision_replaces_witness :
    alookup stateC3.heapMap 1 = some [(4096, infoC3)]
    ∧ alookup [(4096, infoC3)] 4096 = some infoC3
    ∧ ([(4096, infoC3)].map Prod.fst).Nodup
    ∧ (mapBlock stateC3 1 4096 24 false false 3).2.2
        = [.duplicateAddressWarning 4096 infoC3.size 24] :=
  ⟨by decide, by decide, by decide,
   (C6_mapBlock_collision_replaces stateC3 1 4096 24 false false 3
      [(4096, infoC3)] infoC3 (by decide) (by decide) (by decide)).2.2.2.2⟩

/-- Cross-heap validation enabled, everything else clear. -/
def optsValidate : Opts := { optsDefault with validateHeapFree := true }

/-- A ledger where address 100 is live on heap 1 (with a captured stack)
and heap 2 is unknown to the ledger. -/
def stateC5 : LedgerState :=
  { heapMap := [(1, [(100, infoC3)])], curAlloc := 10, totalAlloc := 10,
    maxAlloc := 10, requestCurr := 6 }

/-- As stateC5 but heap 2 has an (empty) heap record. -/
def stateC5b : LedgerState :=
  { heapMap := [(1, [(100, infoC3)]), (2, [])], curAlloc := 10,
    totalAlloc := 10, maxAlloc := 10, requestCurr := 6 }

/-- C5 counterexample: the claim says that with cross-heap validation
enabled a miss triggers the all-heap scan and a diagnostic whenever the
address is live on a different heap; but when the freeing heap has no heap
record at all, unmapBlock returns before the validation scan ever runs:
address 100 is live on heap 1 with a captured allocation stack, the free
is issued on the unknown heap 2 with validation on, yet no diagnostic is
emitted. -/
theorem C5_counterexample_unknown_heap_free :
    optsValidate.validateHeapFree = true
    ∧ findAllocedBlock stateC5.heapMap 100 = some (1, infoC3)
    ∧ infoC3.callStack.isSome = true
    ∧ (1 : Nat) ≠ 2
    ∧ (unmapBlock optsValidate envDefault stateC5 2 100 ⟨0, 0⟩).2 = [] := by
  refine ⟨rfl, by decide, rfl, by decide, by decide⟩

/-- C5 amended: unmapBlock on a missed address never mutates the ledger.
A free issued on a heap the ledger does not know returns silently even
with validation enabled; when the freeing heap has a record but the
address is untracked in it, the cross-heap diagnostic is emitted exactly
when validation is enabled and the all-heap scan finds the address live
(first match in scan order) on a different heap with a captured
allocation stack. -/
theorem C5_unmapBlock_miss (o : Opts) (e : Env) (s : LedgerState)
    (heap mem : Nat) (ctx : ContextT) :
    (alookup s.heapMap heap = none →
      unmapBlock o e s heap mem ctx = (s, []))
    ∧ ∀ bm, mem ≠ 0 → alookup s.heapMap heap = some bm →
        alookup bm mem = none →
        (unmapBlock o e s heap mem ctx).1 = s
        ∧ ((unmapBlock o e s heap mem ctx).2 ≠ [] ↔
            (o.validateHeapFree = true ∧ ∃ hp b,
              findAllocedBlock s.heapMap mem = some (hp, b)
              ∧ b.callStack.isSome = true ∧ hp ≠ heap)) := by
  constructor
  · intro hh
    by_cases hmem : mem = 0
    · simp [unmapBlock, hmem]
    · simp [unmapBlock, hmem, hh]
  · intro bm hmem hh hbm
    rcases hv : o.validateHeapFree with _ | _
    · refine ⟨by simp [unmapBlock, hmem, hh, hbm, hv], ?_, ?_⟩
      · intro hne
        exact absurd (by simp [unmapBlock, hmem, hh, hbm, hv]) hne
      · rintro ⟨hvt, -⟩
        exact absurd hvt (by simp)
    · rcases hf : findAllocedBlock s.heapMap mem with _ | p
      · refine ⟨by simp [unmapBlock, hmem, hh, hbm, hv, hf], ?_, ?_⟩
        · intro hne
          exact absurd (by simp [unmapBlock, hmem, hh, hbm, hv, hf]) hne
        · rintro ⟨-, hp, b, hfb, -⟩
          exact Option.noConfusion hfb
      · obtain ⟨ph, pb⟩ := p
        by_cases hd : pb.callStack.isSome = true ∧ ph ≠ heap
        · refine ⟨by simp [unmapBlock, hmem, hh, hbm, hv, hf, hd], ?_, ?_⟩
          · intro _
            exact ⟨rfl, ph, pb, rfl, hd.1, hd.2⟩
          · intro _
            simp [unmapBlock, hmem, hh, hbm, hv, hf, hd]
        · refine ⟨by simp [unmapBlock, hmem, hh, hbm, hv, hf, hd], ?_, ?_⟩
          · intro hne
            exact absurd (by simp [unmapBlock, hmem, hh, hbm, hv, hf, hd]) hne
          · rintro ⟨-, hp, b, hfb, hcs, hph⟩
            have hpair := Option.some.inj hfb
            have h1 : ph = hp := congrArg Prod.fst hpair
            have h2 : pb = b := congrArg Prod.snd hpair
            refine absurd ⟨?_, ?_⟩ hd
            · rw [h2]
              exact hcs
            · rw [h1]
              exact hph

theorem C5_unmapBlock_miss_witness :
    (100 : Nat) ≠ 0
    ∧ alookup stateC5b.heapMap 2 = some []
    ∧ alookup ([] : BlockMap) 100 = none
    ∧ (unmapBlock optsValidate envDefault stateC5b 2 100 ⟨0, 0⟩).1
        = stateC5b :=
  ⟨by decide, by decide, by decide,
   ((C5_unmapBlock_miss optsValidate envDefault stateC5b 2 100 ⟨0, 0⟩).2
      [] (by decide) (by decide) (by decide)).1⟩

/-! ### Leak reporter (reportLeaks, eraseDuplicates, ReportLeaks,
markAllLeaksAsReported) -/

/-- CRT block-use tags.  Modelled from the spec: CRT_USE_FREE,
CRT_USE_INTERNAL and CRT_USE_TYPE come from a header outside the shown
source; the spec says blocks tagged free-pending or CRT-internal-use are
skipped by the reporter. -/
def CRT_USE_FREE : Nat := 0

def CRT_USE_INTERNAL : Nat := 2

def CRT_USE_TYPE (u : Nat) : Nat := u % 65536

/-- VisualLeakDetector::isDebugCrtAlloc: a block not already flagged is
probed against the CRT debug-header heuristic (the raw memory reads are
the Env.crtDetect oracle); on success the record's flags are updated in
place with the detected layout. -/
def isDebugCrtAlloc (e : Env) (block : Nat) (info : BlockInfo) :
    Bool × BlockInfo :=
  if info.debugCrtAlloc then (true, info)
  else
    match e.crtDetect block info.size with
    | some u => (true, { info with debugCrtAlloc := true, ucrt := u })
    | none => (false, info)

/-- VisualLeakDetector::eraseDuplicates, inner loop over one block map:
skip the element itself (pointer identity in the source, modelled by the
serial number, unique among live blocks), blocks without a call stack and
blocks already aggregated; a block whose size and frame-for-frame call
stack match the element is marked consumed. -/
def eraseDuplicatesBM (elemSerial elemSize : Nat) (elemStack : List Nat)
    (bm : BlockMap) (agg : List Nat) : Nat × List Nat :=
  match bm with
  | [] => (0, agg)
  | (_, info) :: rest =>
      if info.serialNumber = elemSerial then
        eraseDuplicatesBM elemSerial elemSize elemStack rest agg
      else
        match info.callStack with
        | none => eraseDuplicatesBM elemSerial elemSize elemStack rest agg
        | some st =>
            if info.serialNumber ∈ agg then
              eraseDuplicatesBM elemSerial elemSize elemStack rest agg
            else if info.size = elemSize ∧ st = elemStack then
              let r := eraseDuplicatesBM elemSerial elemSize elemStack rest
                (info.serialNumber :: agg)
              (r.1 + 1, r.2)
            else eraseDuplicatesBM elemSerial elemSize elemStack rest agg

/-- eraseDuplicates outer loop over every heap. -/
def eraseDuplicatesHM (elemSerial elemSize : Nat) (elemStack : List Nat)
    (hm : HeapMap) (agg : List Nat) : Nat × List Nat :=
  match hm with
  | [] => (0, agg)
  | (_, bm) :: rest =>
      let r1 := eraseDuplicatesBM elemSerial elemSize elemStack bm agg
      let r2 := eraseDuplicatesHM elemSerial elemSize elemStack rest r1.2
      (r1.1 + r2.1, r2.2)

/-- eraseDuplicates entry point: an element with no call stack aggregates
nothing. -/
def eraseDuplicates (hm : HeapMap) (elemSerial elemSize : Nat)
    (elemStack : Option (List Nat)) (agg : List Nat) : Nat × List Nat :=
  match elemStack with
  | none => (0, agg)
  | some st => eraseDuplicatesHM elemSerial elemSize st hm agg

/-- Whether the thread filter of reportLeaks skips a block (the source
passes threadId = -1 for no filter, modelled as none). -/
def tidSkip (tid : Option Nat) (info : BlockInfo) : Bool :=
  match tid with
  | none => false
  | some t => decide (info.threadId ≠ t)

/-- Whether a (possibly absent) captured stack classifies as CRT startup. -/
def stackIsStartup (e : Env) (cs : Option (List Nat)) : Bool :=
  match cs with
  | some st => e.isCrtStartup st
  | none => false

/-- Result of one iteration of the reportLeaks block loop. -/
structure StepResult where
  info : BlockInfo
  first : Bool
  agg : List Nat
  count : Nat
  events : List ReportEvent
deriving Repr, DecidableEq

/-- One iteration of the VisualLeakDetector::reportLeaks loop body for the
block at the given address: skip already-reported blocks, blocks filtered
out by thread id, blocks consumed by aggregation; probe for a CRT debug
header (skipping free-pending or CRT-internal blocks, otherwise reporting
the user data address and size from the header); with the skip-CRT-startup
option, mark and skip blocks whose stack classifies as startup; otherwise
report the leak, aggregating duplicates across the whole heap map when
enabled. -/
def rlStep (o : Opts) (e : Env) (tid : Option Nat) (hm : HeapMap)
    (first : Bool) (agg : List Nat) (addr : Nat) (info : BlockInfo) :
    StepResult :=
  if info.reported then ⟨info, first, agg, 0, []⟩
  else if tidSkip tid info then ⟨info, first, agg, 0, []⟩
  else if info.serialNumber ∈ agg then ⟨info, first, agg, 0, []⟩
  else
    let probe := isDebugCrtAlloc e addr info
    let isCrt := probe.1
    let info1 := probe.2
    if isCrt = true ∧ (CRT_USE_TYPE (e.crtUse addr info1.ucrt) = CRT_USE_FREE
        ∨ CRT_USE_TYPE (e.crtUse addr info1.ucrt) = CRT_USE_INTERNAL) then
      ⟨info1, first, agg, 0, []⟩
    else
      let address := if isCrt then e.crtData addr else addr
      let size := if isCrt then e.crtSize addr info1.ucrt else info1.size
      if o.skipCrtStartupLeaks = true
          ∧ stackIsStartup e info1.callStack = true then
        ⟨{ info1 with reported := true }, first, agg, 0, []⟩
      else
        let banner : List ReportEvent :=
          if first then [.leaksDetectedBanner] else []
        let r :=
          if o.aggregateDuplicates then
            eraseDuplicates hm info1.serialNumber info1.size info1.callStack
              agg
          else (0, agg)
        let blockCount := 1 + r.1
        ⟨info1, false, r.2, blockCount,
         banner ++ [.leakEntry info1.serialNumber address size blockCount
           (size * blockCount) info1.threadId]⟩


/-- Accumulated result of the reportLeaks loop over a block map (or over
the whole heap map): the updated structure, the threaded first-leak flag
and aggregated set, the number of leaks found, and the emitted events. -/
structure RLRes where
  blocks : BlockMap
  first : Bool
  agg : List Nat
  count : Nat
  events : List ReportEvent
deriving Repr, DecidableEq

/-- Same accumulator for the per-heap loop. -/
structure RHRes where
  heaps : HeapMap
  first : Bool
  agg : List Nat
  count : Nat
  events : List ReportEvent
deriving Repr, DecidableEq

/-- VisualLeakDetector::reportLeaks over one heap's block map, threading
the first-leak flag and the aggregated set and producing the updated block
map (only per-block flags ever change). -/
def reportLeaksBlocks (o : Opts) (e : Env) (tid : Option Nat)
    (hm : HeapMap) : BlockMap → Bool → List Nat → RLRes
  | [], first, agg => ⟨[], first, agg, 0, []⟩
  | (addr, info) :: rest, first, agg =>
      let r := rlStep o e tid hm first agg addr info
      let t := reportLeaksBlocks o e tid hm rest r.first r.agg
      ⟨(addr, r.info) :: t.blocks, t.first, t.agg, r.count + t.count,
       r.events ++ t.events⟩

/-- The per-heap loop shared by ReportLeaks and ReportThreadLeaks.  The
heap map snapshot handed to eraseDuplicates is the pass-entry one: during
a pass only reported/CRT flags of blocks can change, and eraseDuplicates
reads only serial numbers, sizes and call stacks, so this is
observationally the live structure (proved below as congruence of
eraseDuplicates under the projection to those fields). -/
def reportLeaksHeaps (o : Opts) (e : Env) (tid : Option Nat)
    (hmSnap : HeapMap) : HeapMap → Bool → List Nat → RHRes
  | [], first, agg => ⟨[], first, agg, 0, []⟩
  | (h, bm) :: rest, first, agg =>
      let rb := reportLeaksBlocks o e tid hmSnap bm first agg
      let rr := reportLeaksHeaps o e tid hmSnap rest rb.first rb.agg
      ⟨(h, rb.blocks) :: rr.heaps, rr.first, rr.agg, rb.count + rr.count,
       rb.events ++ rr.events⟩

/-- VisualLeakDetector::ReportLeaks: nothing when VLD is off; otherwise a
single pass over every heap with the shared first-leak flag and a fresh,
call-local aggregated-duplicates set. -/
def ReportLeaks (o : Opts) (e : Env) (s : LedgerState) :
    Nat × LedgerState × List ReportEvent :=
  if o.vldOff then (0, s, [])
  else
    let r := reportLeaksHeaps o e none s.heapMap s.heapMap true []
    (r.count, { s with heapMap := r.heaps }, r.events)

/-- VisualLeakDetector::markAllLeaksAsReported for one heap: set the
reported flag of every block (matching the thread filter when given). -/
def markAllLeaksAsReportedBM (tid : Option Nat) (bm : BlockMap) : BlockMap :=
  bm.map (fun p =>
    if tid = none ∨ tid = some p.2.threadId then
      (p.1, { p.2 with reported := true })
    else p)

/-- VisualLeakDetector::MarkAllLeaksAsReported / MarkThreadLeaksAsReported:
nothing when VLD is off; otherwise mark every heap's blocks. -/
def MarkAllLeaksAsReported (o : Opts) (tid : Option Nat)
    (s : LedgerState) : LedgerState :=
  if o.vldOff then s
  else
    { s with heapMap :=
        s.heapMap.map (fun h => (h.1, markAllLeaksAsReportedBM tid h.2)) }

/-- The leak entries among a list of report events. -/
def leakEntries (evs : List ReportEvent) : List ReportEvent :=
  evs.filter (fun ev =>
    match ev with
    | .leakEntry _ _ _ _ _ _ => true
    | _ => false)

/-! ### Reporter lemmas -/

/-- Every block in the heap map already carries the reported flag. -/
def AllReported (hm : HeapMap) : Prop :=
  ∀ p ∈ hm, ∀ q ∈ p.2, (q : Nat × BlockInfo).2.reported = true

theorem rlStep_reported (o : Opts) (e : Env) (tid : Option Nat)
    (hm : HeapMap) (first : Bool) (agg : List Nat) (addr : Nat)
    (info : BlockInfo) (h : info.reported = true) :
    rlStep o e tid hm first agg addr info = ⟨info, first, agg, 0, []⟩ := by
  simp [rlStep, h]

theorem reportLeaksBlocks_reported (o : Opts) (e : Env) (tid : Option Nat)
    (hm : HeapMap) (bm : BlockMap) (first : Bool) (agg : List Nat)
    (h : ∀ q ∈ bm, (q : Nat × BlockInfo).2.reported = true) :
    reportLeaksBlocks o e tid hm bm first agg = ⟨bm, first, agg, 0, []⟩ := by
  induction bm generalizing first agg with
  | nil => rfl
  | cons q rest ih =>
      obtain ⟨addr, info⟩ := q
      have hq : info.reported = true := h (addr, info) (List.mem_cons_self _ _)
      simp only [reportLeaksBlocks,
        rlStep_reported o e tid hm first agg addr info hq,
        ih first agg (fun p hp => h p (List.mem_cons_of_mem _ hp))]
      rfl

theorem reportLeaksHeaps_reported (o : Opts) (e : Env) (tid : Option Nat)
    (snap : HeapMap) (hm : HeapMap) (first : Bool) (agg : List Nat)
    (h : AllReported hm) :
    reportLeaksHeaps o e tid snap hm first agg = ⟨hm, first, agg, 0, []⟩ := by
  induction hm generalizing first agg with
  | nil => rfl
  | cons p rest ih =>
      obtain ⟨hp, bm⟩ := p
      have hb := reportLeaksBlocks_reported o e tid snap bm first agg
        (fun q hq => h (hp, bm) (List.mem_cons_self _ _) q hq)
      simp only [reportLeaksHeaps, hb,
        ih first agg (fun p hp2 => h p (List.mem_cons_of_mem _ hp2))]
      rfl

theorem markAll_allReported (o : Opts) (s : LedgerState)
    (hoff : o.vldOff = false) :
    AllReported (MarkAllLeaksAsReported o none s).heapMap := by
  intro p hp q hq
  simp only [MarkAllLeaksAsReported, hoff, Bool.false_eq_true, if_false] at hp
  rcases List.mem_map.mp hp with ⟨p0, hp0, hpe⟩
  rw [← hpe] at hq
  simp only [markAllLeaksAsReportedBM] at hq
  rcases List.mem_map.mp hq with ⟨q0, hq0, hqe⟩
  rw [← hqe]
  simp

theorem markAll_requestCurr (o : Opts) (s : LedgerState) (tid : Option Nat) :
    (MarkAllLeaksAsReported o tid s).requestCurr = s.requestCurr := by
  unfold MarkAllLeaksAsReported
  split
  · rfl
  · rfl

theorem reportLeaksBlocks_append (o : Opts) (e : Env) (tid : Option Nat)
    (hm : HeapMap) (xs ys : BlockMap) (first : Bool) (agg : List Nat) :
    reportLeaksBlocks o e tid hm (xs ++ ys) first agg =
      (let rx := reportLeaksBlocks o e tid hm xs first agg
       let ry := reportLeaksBlocks o e tid hm ys rx.first rx.agg
       ⟨rx.blocks ++ ry.blocks, ry.first, ry.agg, rx.count + ry.count,
        rx.events ++ ry.events⟩) := by
  induction xs generalizing first agg with
  | nil => simp [reportLeaksBlocks]
  | cons q rest ih =>
      obtain ⟨addr, info⟩ := q
      simp only [List.cons_append, reportLeaksBlocks, List.append_eq]
      rw [ih]
      simp [Nat.add_assoc]

theorem reportLeaksHeaps_append (o : Opts) (e : Env) (tid : Option Nat)
    (snap : HeapMap) (xs ys : HeapMap) (first : Bool) (agg : List Nat) :
    reportLeaksHeaps o e tid snap (xs ++ ys) first agg =
      (let rx := reportLeaksHeaps o e tid snap xs first agg
       let ry := reportLeaksHeaps o e tid snap ys rx.first rx.agg
       ⟨rx.heaps ++ ry.heaps, ry.first, ry.agg, rx.count + ry.count,
        rx.events ++ ry.events⟩) := by
  induction xs generalizing first agg with
  | nil => simp [reportLeaksHeaps]
  | cons q rest ih =>
      obtain ⟨hp, bm⟩ := q
      simp only [List.cons_append, reportLeaksHeaps, List.append_eq]
      rw [ih]
      simp [Nat.add_assoc]

theorem aupdate_split {α : Type} {l : List (Nat × α)} {k : Nat} {v0 : α}
    (h : alookup l k = some v0) (v : α) :
    ∃ pre post, l = pre ++ (k, v0) :: post
      ∧ (∀ p ∈ pre, (p : Nat × α).1 ≠ k)
      ∧ aupdate l k v = pre ++ (k, v) :: post := by
  induction l with
  | nil => simp [alookup] at h
  | cons q rest ih =>
      obtain ⟨k', v'⟩ := q
      by_cases hk : k' = k
      · subst hk
        simp [alookup] at h
        subst h
        exact ⟨[], rest, rfl, by simp, by simp [aupdate]⟩
      · simp only [alookup, if_neg hk] at h
        rcases ih h with ⟨pre, post, h1, h2, h3⟩
        refine ⟨(k', v') :: pre, post, by simp [h1], ?_, ?_⟩
        · intro p hp
          rcases List.mem_cons.mp hp with hp2 | hp2
          · rw [hp2]
            exact hk
          · exact h2 p hp2
        · simp [aupdate, hk, h3]

theorem aupdate_append_of_none {α : Type} {l : List (Nat × α)} {k : Nat}
    (h : alookup l k = none) (v0 v : α) :
    aupdate (l ++ [(k, v0)]) k v = l ++ [(k, v)] := by
  induction l with
  | nil => simp [aupdate]
  | cons q rest ih =>
      obtain ⟨k', v'⟩ := q
      by_cases hk : k' = k
      · simp [alookup, hk] at h
      · simp only [alookup, if_neg hk] at h
        simp [aupdate, hk, ih h]

/-- The step of reportLeaks on a freshly mapped record (reported flag
false, no call stack, not CRT-flagged, CRT probe failing): one leak is
reported with duplicate count 1 and the aggregated set is untouched. -/
theorem rlStep_freshBlock (o : Opts) (e : Env) (hm : HeapMap)
    (first : Bool) (agg : List Nat) (addr sz serial tid : Nat)
    (hcrt : e.crtDetect addr sz = none) (hagg : serial ∉ agg) :
    rlStep o e none hm first agg addr (newBlockInfo serial sz tid false false)
      = ⟨newBlockInfo serial sz tid false false, false, agg, 1,
         (if first then [.leaksDetectedBanner] else [])
           ++ [.leakEntry serial addr sz 1 (sz * 1) tid]⟩ := by
  simp [rlStep, newBlockInfo, tidSkip, isDebugCrtAlloc, hcrt, stackIsStartup,
    eraseDuplicates, hagg]

theorem mapBlock_blockinfo (s : LedgerState) (heap mem sz : Nat)
    (d u : Bool) (tid : Nat) :
    (mapBlock s heap mem sz d u tid).2.1
      = newBlockInfo s.requestCurr (sz % W) tid d u := by
  rcases hh : alookup s.heapMap heap with _ | bm
  · have hlk := alookup_append_of_none hh ([] : BlockMap)
    simp [mapBlock, hh, hlk, alookup]
  · rcases hbm : alookup bm mem with _ | old
    · simp [mapBlock, hh, hbm]
    · simp [mapBlock, hh, hbm]

theorem mapBlock_heapMap_newheap (s : LedgerState) (heap mem sz : Nat)
    (d u : Bool) (tid : Nat) (hh : alookup s.heapMap heap = none) :
    (mapBlock s heap mem sz d u tid).1.heapMap
      = s.heapMap
          ++ [(heap, [(mem, newBlockInfo s.requestCurr (sz % W) tid d u)])] := by
  have hlk := alookup_append_of_none hh ([] : BlockMap)
  simp only [mapBlock, hh, hlk, Option.getD_some, alookup, List.nil_append]
  exact aupdate_append_of_none hh _ _

theorem mapBlock_heapMap_freshaddr (s : LedgerState) (heap mem sz : Nat)
    (d u : Bool) (tid : Nat) (bm : BlockMap)
    (hh : alookup s.heapMap heap = some bm)
    (hbm : alookup bm mem = none) :
    (mapBlock s heap mem sz d u tid).1.heapMap
      = aupdate s.heapMap heap
          (bm ++ [(mem, newBlockInfo s.requestCurr (sz % W) tid d u)]) := by
  simp only [mapBlock, hh, Option.getD_some, hbm]

theorem mapBlock_heapMap_collision (s : LedgerState) (heap mem sz : Nat)
    (d u : Bool) (tid : Nat) (bm : BlockMap) (old : BlockInfo)
    (hh : alookup s.heapMap heap = some bm)
    (hbm : alookup bm mem = some old) :
    (mapBlock s heap mem sz d u tid).1.heapMap
      = aupdate s.heapMap heap
          (aerase bm mem
            ++ [(mem, newBlockInfo s.requestCurr (sz % W) tid d u)]) := by
  simp only [mapBlock, hh, Option.getD_some, hbm]

theorem reportLeaksBlocks_markedPlusFresh (o : Opts) (e : Env)
    (hm : HeapMap) (bmOld : BlockMap) (mem sz serial tid : Nat)
    (first : Bool)
    (hOld : ∀ q ∈ bmOld, (q : Nat × BlockInfo).2.reported = true)
    (hcrt : e.crtDetect mem sz = none) :
    reportLeaksBlocks o e none hm
        (bmOld ++ [(mem, newBlockInfo serial sz tid false false)]) first []
      = ⟨bmOld ++ [(mem, newBlockInfo serial sz tid false false)], false, [],
         1, (if first then [.leaksDetectedBanner] else [])
              ++ [.leakEntry serial mem sz 1 (sz * 1) tid]⟩ := by
  rw [reportLeaksBlocks_append]
  rw [reportLeaksBlocks_reported o e none hm bmOld first [] hOld]
  simp only [reportLeaksBlocks,
    rlStep_freshBlock o e hm first [] mem sz serial tid hcrt
      (by simp)]
  simp

theorem reportLeaksHeaps_one_fresh (o : Opts) (e : Env) (snap : HeapMap)
    (pre post : HeapMap) (heap : Nat) (bmOld : BlockMap)
    (mem sz serial tid : Nat)
    (hpre : AllReported pre) (hpost : AllReported post)
    (hOld : ∀ q ∈ bmOld, (q : Nat × BlockInfo).2.reported = true)
    (hcrt : e.crtDetect mem sz = none) :
    reportLeaksHeaps o e none snap
        (pre ++ (heap,
            bmOld ++ [(mem, newBlockInfo serial sz tid false false)]) :: post)
        true []
      = ⟨pre ++ (heap,
            bmOld ++ [(mem, newBlockInfo serial sz tid false false)]) :: post,
         false, [], 1,
         [.leaksDetectedBanner, .leakEntry serial mem sz 1 (sz * 1) tid]⟩ := by
  rw [reportLeaksHeaps_append]
  rw [reportLeaksHeaps_reported o e none snap pre true [] hpre]
  simp only [reportLeaksHeaps,
    reportLeaksBlocks_markedPlusFresh o e snap bmOld mem sz serial tid true
      hOld hcrt,
    reportLeaksHeaps_reported o e none snap post false [] hpost]
  rfl

/-- C4: after marking all leaks as reported, an immediate ReportLeaks
reports zero leaks (count 0 and no output at all); mapBlock always creates
its record with the reported flag false; hence a plain (non-CRT) block
mapped after the mark and never unmapped is still reported by a later
ReportLeaks, which reports exactly that one leak. -/
theorem C4_mark_then_report (o : Opts) (e : Env) (s : LedgerState)
    (heap mem sz tid : Nat) (hoff : o.vldOff = false)
    (hcrt : e.crtDetect mem (sz % W) = none) :
    (ReportLeaks o e (MarkAllLeaksAsReported o none s)).1 = 0
    ∧ (ReportLeaks o e (MarkAllLeaksAsReported o none s)).2.2 = []
    ∧ (∀ (s' : LedgerState) (heap' mem' sz' : Nat) (d' u' : Bool)
        (tid' : Nat),
        (mapBlock s' heap' mem' sz' d' u' tid').2.1.reported = false)
    ∧ (ReportLeaks o e
        (mapBlock (MarkAllLeaksAsReported o none s) heap mem sz false false
          tid).1).1 = 1
    ∧ leakEntries (ReportLeaks o e
        (mapBlock (MarkAllLeaksAsReported o none s) heap mem sz false false
          tid).1).2.2
        = [.leakEntry s.requestCurr mem (sz % W) 1 ((sz % W) * 1) tid] := by
  have hAll := markAll_allReported o s hoff
  set s1 := MarkAllLeaksAsReported o none s with hs1
  have hreq : s1.requestCurr = s.requestCurr := markAll_requestCurr o s none
  have hRLH := reportLeaksHeaps_reported o e none s1.heapMap s1.heapMap
    true [] hAll
  refine ⟨by simp [ReportLeaks, hoff, hRLH], by simp [ReportLeaks, hoff, hRLH],
    ?_, ?_⟩
  · intro s' heap' mem' sz' d' u' tid'
    rw [mapBlock_blockinfo]
    rfl
  have hfinal : ∀ pre post (bmOld : BlockMap),
      AllReported pre → AllReported post →
      (∀ q ∈ bmOld, (q : Nat × BlockInfo).2.reported = true) →
      (mapBlock s1 heap mem sz false false tid).1.heapMap
        = pre ++ (heap, bmOld
            ++ [(mem, newBlockInfo s1.requestCurr (sz % W) tid false
                  false)]) :: post →
      (ReportLeaks o e (mapBlock s1 heap mem sz false false tid).1).1 = 1
      ∧ leakEntries
          (ReportLeaks o e (mapBlock s1 heap mem sz false false tid).1).2.2
        = [.leakEntry s.requestCurr mem (sz % W) 1 ((sz % W) * 1) tid] := by
    intro pre post bmOld hpre hpost hOld hshape
    have hpass := reportLeaksHeaps_one_fresh o e
      (mapBlock s1 heap mem sz false false tid).1.heapMap pre post heap
      bmOld mem (sz % W) s1.requestCurr tid hpre hpost hOld hcrt
    constructor
    · simp only [ReportLeaks, hoff, Bool.false_eq_true, if_false]
      nth_rewrite 2 [hshape]
      rw [hpass]
    · simp only [ReportLeaks, hoff, Bool.false_eq_true, if_false]
      nth_rewrite 2 [hshape]
      rw [hpass]
      simp [leakEntries, hreq]
  rcases hh : alookup s1.heapMap heap with _ | bm
  · refine hfinal s1.heapMap [] [] hAll ?_ ?_ ?_
    · intro p hp
      simp at hp
    · intro q hq
      simp at hq
    · rw [mapBlock_heapMap_newheap s1 heap mem sz false false tid hh]
      simp
  · rcases hbm : alookup bm mem with _ | old
    · obtain ⟨pre, post, hsp, hprekeys, hupd⟩ := aupdate_split hh
        (bm ++ [(mem, newBlockInfo s1.requestCurr (sz % W) tid false false)])
      refine hfinal pre post bm ?_ ?_ ?_ ?_
      · intro p hp
        exact hAll p (hsp ▸ List.mem_append_left _ hp)
      · intro p hp
        exact hAll p (hsp ▸ List.mem_append_right _
          (List.mem_cons_of_mem _ hp))
      · intro q hq
        exact hAll (heap, bm)
          (hsp ▸ List.mem_append_right _ (List.mem_cons_self _ _)) q hq
      · rw [mapBlock_heapMap_freshaddr s1 heap mem sz false false tid bm hh
          hbm]
        exact hupd
    · obtain ⟨pre, post, hsp, hprekeys, hupd⟩ := aupdate_split hh
        (aerase bm mem
          ++ [(mem, newBlockInfo s1.requestCurr (sz % W) tid false false)])
      refine hfinal pre post (aerase bm mem) ?_ ?_ ?_ ?_
      · intro p hp
        exact hAll p (hsp ▸ List.mem_append_left _ hp)
      · intro p hp
        exact hAll p (hsp ▸ List.mem_append_right _
          (List.mem_cons_of_mem _ hp))
      · intro q hq
        exact hAll (heap, bm)
          (hsp ▸ List.mem_append_right _ (List.mem_cons_self _ _)) q
          (mem_aerase hq)
      · rw [mapBlock_heapMap_collision s1 heap mem sz false false tid bm old
          hh hbm]
        exact hupd

theorem C4_mark_then_report_witness :
    optsDefault.vldOff = false
    ∧ envDefault.crtDetect 500 (33 % W) = none
    ∧ (ReportLeaks optsDefault envDefault
        (MarkAllLeaksAsReported optsDefault none stateC3)).1 = 0 :=
  ⟨rfl, rfl,
   (C4_mark_then_report optsDefault envDefault stateC3 1 500 33 4 rfl
      rfl).1⟩

/-! ### Aggregation round-trip -/

/-- A live, not-yet-reported block with a captured call stack. -/
def dupInfo (serial sz tid : Nat) (st : List Nat) : BlockInfo :=
  { threadId := tid, serialNumber := serial, size := sz, reported := false,
    debugCrtAlloc := false, ucrt := false, callStack := some st }

/-- m blocks with identical size and call stack at consecutive addresses
base + k, base + k + 1, ..., carrying serial numbers k + 1, ..., k + m. -/
def dupBlocks (base sz tid : Nat) (st : List Nat) : Nat → Nat → BlockMap
  | _, 0 => []
  | k, m + 1 => (base + k, dupInfo (k + 1) sz tid st)
      :: dupBlocks base sz tid st (k + 1) m

/-- The per-block leak entries reportLeaks emits for such a run when
aggregation is disabled. -/
def dupEntries (base sz tid : Nat) : Nat → Nat → List ReportEvent
  | _, 0 => []
  | k, m + 1 => .leakEntry (k + 1) (base + k) sz 1 (sz * 1) tid
      :: dupEntries base sz tid (k + 1) m

theorem dupEntries_length (base sz tid k m : Nat) :
    (dupEntries base sz tid k m).length = m := by
  induction m generalizing k with
  | zero => rfl
  | succ m ih => simp [dupEntries, ih]

theorem eraseDuplicatesBM_dup (base sz tid : Nat) (st : List Nat)
    (k m : Nat) (agg : List Nat) (hk : 1 ≤ k)
    (hagg : ∀ j, k < j → j ≤ k + m → j ∉ agg) :
    (eraseDuplicatesBM 1 sz st (dupBlocks base sz tid st k m) agg).1 = m
    ∧ ∀ j, (j ∈ (eraseDuplicatesBM 1 sz st
          (dupBlocks base sz tid st k m) agg).2
        ↔ (j ∈ agg ∨ (k < j ∧ j ≤ k + m))) := by
  induction m generalizing k agg with
  | zero =>
      refine ⟨rfl, ?_⟩
      intro j
      simp only [dupBlocks, eraseDuplicatesBM]
      constructor
      · exact fun h => Or.inl h
      · rintro (h | h)
        · exact h
        · omega
  | succ m ih =>
      have hser : ¬(k + 1 = 1) := by omega
      have hmem : (k + 1) ∉ agg := hagg (k + 1) (by omega) (by omega)
      have hrec := ih (k + 1) ((k + 1) :: agg)
        (by omega)
        (by
          intro j hj1 hj2
          simp only [List.mem_cons, not_or]
          exact ⟨by omega, hagg j (by omega) (by omega)⟩)
      simp only [dupBlocks, eraseDuplicatesBM, dupInfo, if_neg hser,
        if_neg hmem, eq_self_iff_true, and_self, if_true]
      refine ⟨by rw [hrec.1], ?_⟩
      intro j
      rw [hrec.2 j]
      simp only [List.mem_cons]
      constructor
      · rintro ((h | h) | h)
        · right; omega
        · left; exact h
        · right; omega
      · rintro (h | h)
        · left; right; exact h
        · by_cases hj : j = k + 1
          · left; left; exact hj
          · right; omega

theorem leakEntries_append (a b : List ReportEvent) :
    leakEntries (a ++ b) = leakEntries a ++ leakEntries b := by
  simp [leakEntries]

theorem leakEntries_banner (first : Bool) :
    leakEntries (if first then [ReportEvent.leaksDetectedBanner] else [])
      = [] := by
  rcases first with _ | _ <;> simp [leakEntries]

theorem leakEntries_entry (serial addr sz cnt total tid : Nat) :
    leakEntries [ReportEvent.leakEntry serial addr sz cnt total tid]
      = [ReportEvent.leakEntry serial addr sz cnt total tid] := by
  simp [leakEntries]

theorem rlStep_aggMember (o : Opts) (e : Env) (hm : HeapMap) (first : Bool)
    (agg : List Nat) (addr : Nat) (info : BlockInfo)
    (h1 : info.reported = false) (h3 : info.serialNumber ∈ agg) :
    rlStep o e none hm first agg addr info = ⟨info, first, agg, 0, []⟩ := by
  simp [rlStep, h1, tidSkip, h3]

theorem reportLeaksBlocks_allAgg (o : Opts) (e : Env) (hm : HeapMap)
    (base sz tid k m : Nat) (st : List Nat) (first : Bool) (agg : List Nat)
    (hagg : ∀ j, k < j → j ≤ k + m → j ∈ agg) :
    reportLeaksBlocks o e none hm (dupBlocks base sz tid st k m) first agg
      = ⟨dupBlocks base sz tid st k m, first, agg, 0, []⟩ := by
  induction m generalizing k with
  | zero => rfl
  | succ m ih =>
      have hstep := rlStep_aggMember o e hm first agg (base + k)
        (dupInfo (k + 1) sz tid st) rfl
        (hagg (k + 1) (by omega) (by omega))
      simp only [dupBlocks, reportLeaksBlocks, hstep,
        ih (k + 1) (fun j h1 h2 => hagg j (by omega) (by omega))]
      rfl

/-- The reportLeaks step on a clean duplicate-run block with aggregation
disabled: the block is reported with duplicate count 1 and the aggregated
set stays untouched. -/
theorem rlStep_dupLeak_noagg (o : Opts) (e : Env) (hm : HeapMap)
    (first : Bool) (agg : List Nat) (addr sz serial tid : Nat)
    (st : List Nat) (hnoagg : o.aggregateDuplicates = false)
    (hcrt : e.crtDetect addr sz = none) (hst : e.isCrtStartup st = false)
    (hmem : serial ∉ agg) :
    rlStep o e none hm first agg addr (dupInfo serial sz tid st)
      = ⟨dupInfo serial sz tid st, false, agg, 1,
         (if first then [.leaksDetectedBanner] else [])
           ++ [.leakEntry serial addr sz 1 (sz * 1) tid]⟩ := by
  simp [rlStep, dupInfo, tidSkip, isDebugCrtAlloc, hcrt, stackIsStartup,
    hst, hmem, hnoagg]

/-- The same step with aggregation enabled folds in the result of the
all-heap duplicate scan. -/
theorem rlStep_dupLeak_agg (o : Opts) (e : Env) (hm : HeapMap)
    (first : Bool) (agg : List Nat) (addr sz serial tid : Nat)
    (st : List Nat) (hagg : o.aggregateDuplicates = true)
    (hcrt : e.crtDetect addr sz = none) (hst : e.isCrtStartup st = false)
    (hmem : serial ∉ agg) :
    rlStep o e none hm first agg addr (dupInfo serial sz tid st)
      = ⟨dupInfo serial sz tid st, false,
         (eraseDuplicatesHM serial sz st hm agg).2,
         1 + (eraseDuplicatesHM serial sz st hm agg).1,
         (if first then [.leaksDetectedBanner] else [])
           ++ [.leakEntry serial addr sz
                (1 + (eraseDuplicatesHM serial sz st hm agg).1)
                (sz * (1 + (eraseDuplicatesHM serial sz st hm agg).1))
                tid]⟩ := by
  simp [rlStep, dupInfo, tidSkip, isDebugCrtAlloc, hcrt, stackIsStartup,
    hst, hmem, hagg, eraseDuplicates]

/-- The reportLeaks pass over a run of identical blocks with aggregation
disabled: every block is output individually with count 1. -/
theorem reportLeaksBlocks_dup_noagg (o : Opts) (e : Env) (hm : HeapMap)
    (base sz tid : Nat) (st : List Nat) (k m : Nat) (first : Bool)
    (hnoagg : o.aggregateDuplicates = false)
    (hcrt : ∀ a b, e.crtDetect a b = none)
    (hst : e.isCrtStartup st = false) :
    (reportLeaksBlocks o e none hm (dupBlocks base sz tid st k m) first
        []).blocks = dupBlocks base sz tid st k m
    ∧ (reportLeaksBlocks o e none hm (dupBlocks base sz tid st k m) first
        []).agg = []
    ∧ (reportLeaksBlocks o e none hm (dupBlocks base sz tid st k m) first
        []).count = m
    ∧ leakEntries (reportLeaksBlocks o e none hm
        (dupBlocks base sz tid st k m) first []).events
      = dupEntries base sz tid k m := by
  induction m generalizing k first with
  | zero => exact ⟨rfl, rfl, rfl, rfl⟩
  | succ m ih =>
      have hstep := rlStep_dupLeak_noagg o e hm first [] (base + k) sz
        (k + 1) tid st hnoagg (hcrt _ _) hst (by simp)
      obtain ⟨ih1, ih2, ih3, ih4⟩ := ih (k + 1) false
      simp only [dupBlocks, reportLeaksBlocks, hstep, ih1, ih2, ih3]
      refine ⟨trivial, trivial, by omega, ?_⟩
      rw [leakEntries_append, leakEntries_append, ih4, leakEntries_banner,
        leakEntries_entry]
      simp [dupEntries]

/-- The aggregation round-trip ledger: one heap holding n identical
blocks. -/
def dupState (hp base sz tid n : Nat) (st : List Nat) : LedgerState :=
  { heapMap := [(hp, dupBlocks base sz tid st 0 n)], curAlloc := 0,
    totalAlloc := 0, maxAlloc := 0, requestCurr := n + 1 }

/-- Two blocks that agree except in the dedup key (size or stack). -/
def mismatchState (hp base sz sz' tid : Nat) (st st' : List Nat) :
    LedgerState :=
  { heapMap := [(hp, [(base, dupInfo 1 sz tid st),
      (base + 1, dupInfo 2 sz' tid st')])],
    curAlloc := 0, totalAlloc := 0, maxAlloc := 0, requestCurr := 3 }

theorem reportLeaksBlocks_dup_agg (o : Opts) (e : Env)
    (hp base sz tid m : Nat) (st : List Nat)
    (haggon : o.aggregateDuplicates = true)
    (hcrt : ∀ a b, e.crtDetect a b = none)
    (hst : e.isCrtStartup st = false) :
    (reportLeaksBlocks o e none (dupState hp base sz tid (m + 1) st).heapMap
        (dupBlocks base sz tid st 0 (m + 1)) true []).blocks
        = dupBlocks base sz tid st 0 (m + 1)
    ∧ (reportLeaksBlocks o e none (dupState hp base sz tid (m + 1) st).heapMap
        (dupBlocks base sz tid st 0 (m + 1)) true []).count = m + 1
    ∧ leakEntries (reportLeaksBlocks o e none
        (dupState hp base sz tid (m + 1) st).heapMap
        (dupBlocks base sz tid st 0 (m + 1)) true []).events
      = [.leakEntry 1 (base + 0) sz (m + 1) (sz * (m + 1)) tid] := by
  have hbm := eraseDuplicatesBM_dup base sz tid st 1 m [] (le_refl 1)
    (by intro j h1 h2; simp)
  have hEDBM : eraseDuplicatesBM 1 sz st (dupBlocks base sz tid st 0 (m + 1))
      [] = ((eraseDuplicatesBM 1 sz st (dupBlocks base sz tid st 1 m) []).1,
        (eraseDuplicatesBM 1 sz st (dupBlocks base sz tid st 1 m) []).2) := by
    simp [dupBlocks, eraseDuplicatesBM, dupInfo]
  have hEDHM : eraseDuplicatesHM 1 sz st
      (dupState hp base sz tid (m + 1) st).heapMap []
      = ((eraseDuplicatesBM 1 sz st (dupBlocks base sz tid st 1 m) []).1,
        (eraseDuplicatesBM 1 sz st (dupBlocks base sz tid st 1 m) []).2) := by
    simp only [dupState, eraseDuplicatesHM, hEDBM]
    rfl
  have hstep := rlStep_dupLeak_agg o e
    (dupState hp base sz tid (m + 1) st).heapMap true [] (base + 0) sz 1 tid
    st haggon (hcrt _ _) hst (by simp)
  rw [hEDHM] at hstep
  have htail := reportLeaksBlocks_allAgg o e
    (dupState hp base sz tid (m + 1) st).heapMap base sz tid 1 m st false
    (eraseDuplicatesBM 1 sz st (dupBlocks base sz tid st 1 m) []).2
    (by intro j h1 h2; exact (hbm.2 j).mpr (Or.inr ⟨h1, by omega⟩))
  have hunfold : dupBlocks base sz tid st 0 (m + 1)
      = (base + 0, dupInfo 1 sz tid st) :: dupBlocks base sz tid st 1 m := by
    simp [dupBlocks]
  rw [hunfold]
  simp only [reportLeaksBlocks, hstep, htail, hbm.1]
  refine ⟨trivial, by omega, ?_⟩
  rw [Nat.add_comm 1 m]
  simp [leakEntries]

/-- C2: for N (= m + 1 ≥ 1) live, not-yet-reported blocks of identical size
and frame-for-frame identical call stacks, ReportLeaks with aggregation
enabled outputs exactly one leak entry whose count is N and whose total
byte count is N times the size (the other N - 1 blocks are consumed and
never output); with aggregation disabled it outputs N separate entries
each with count 1; and the dedup key is exactly (byte size, frame-for-frame
call-stack equality): two blocks differing in size or stack are both
output even with aggregation enabled. -/
theorem C2_aggregation_roundtrip (o : Opts) (e : Env)
    (hp base sz tid m : Nat) (st : List Nat) (hoff : o.vldOff = false)
    (hcrt : ∀ a b, e.crtDetect a b = none)
    (hst : e.isCrtStartup st = false) :
    (o.aggregateDuplicates = true →
      (ReportLeaks o e (dupState hp base sz tid (m + 1) st)).1 = m + 1
      ∧ leakEntries
          (ReportLeaks o e (dupState hp base sz tid (m + 1) st)).2.2
        = [.leakEntry 1 (base + 0) sz (m + 1) (sz * (m + 1)) tid])
    ∧ (o.aggregateDuplicates = false →
      (ReportLeaks o e (dupState hp base sz tid (m + 1) st)).1 = m + 1
      ∧ leakEntries
          (ReportLeaks o e (dupState hp base sz tid (m + 1) st)).2.2
        = dupEntries base sz tid 0 (m + 1)
      ∧ (leakEntries
          (ReportLeaks o e (dupState hp base sz tid (m + 1) st)).2.2).length
        = m + 1)
    ∧ (∀ sz' st', o.aggregateDuplicates = true →
        e.isCrtStartup st' = false → sz ≠ sz' ∨ st ≠ st' →
        (ReportLeaks o e (mismatchState hp base sz sz' tid st st')).1 = 2
        ∧ (leakEntries
            (ReportLeaks o e (mismatchState hp base sz sz' tid st
              st')).2.2).length = 2) := by
  refine ⟨?_, ?_, ?_⟩
  · intro haggon
    obtain ⟨h1, h2, h3⟩ := reportLeaksBlocks_dup_agg o e hp base sz tid m st
      haggon hcrt hst
    constructor
    · simp only [ReportLeaks, hoff, Bool.false_eq_true, if_false]
      show (reportLeaksHeaps o e none (dupState hp base sz tid (m + 1)
        st).heapMap [(hp, dupBlocks base sz tid st 0 (m + 1))] true
        []).count = m + 1
      simp only [reportLeaksHeaps, h2]
    · simp only [ReportLeaks, hoff, Bool.false_eq_true, if_false]
      show leakEntries (reportLeaksHeaps o e none (dupState hp base sz tid
        (m + 1) st).heapMap [(hp, dupBlocks base sz tid st 0 (m + 1))] true
        []).events = _
      simp only [reportLeaksHeaps]
      rw [List.append_nil, h3]
  · intro hnoagg
    obtain ⟨h1, h2, h3, h4⟩ := reportLeaksBlocks_dup_noagg o e
      (dupState hp base sz tid (m + 1) st).heapMap base sz tid st 0 (m + 1)
      true hnoagg hcrt hst
    refine ⟨?_, ?_, ?_⟩
    · simp only [ReportLeaks, hoff, Bool.false_eq_true, if_false]
      show (reportLeaksHeaps o e none (dupState hp base sz tid (m + 1)
        st).heapMap [(hp, dupBlocks base sz tid st 0 (m + 1))] true
        []).count = m + 1
      simp only [reportLeaksHeaps, h3]
    · simp only [ReportLeaks, hoff, Bool.false_eq_true, if_false]
      show leakEntries (reportLeaksHeaps o e none (dupState hp base sz tid
        (m + 1) st).heapMap [(hp, dupBlocks base sz tid st 0 (m + 1))] true
        []).events = _
      simp only [reportLeaksHeaps]
      rw [List.append_nil, h4]
    · simp only [ReportLeaks, hoff, Bool.false_eq_true, if_false]
      show (leakEntries (reportLeaksHeaps o e none (dupState hp base sz tid
        (m + 1) st).heapMap [(hp, dupBlocks base sz tid st 0 (m + 1))] true
        []).events).length = m + 1
      simp only [reportLeaksHeaps]
      rw [List.append_nil, h4, dupEntries_length]
  · intro sz' st' haggon hst' hne
    have hne1 : ¬(sz' = sz ∧ st' = st) := by
      rcases hne with h | h
      · exact fun hc => h (hc.1.symm)
      · exact fun hc => h (hc.2.symm)
    have hne2 : ¬(sz = sz' ∧ st = st') := by
      rcases hne with h | h
      · exact fun hc => h hc.1
      · exact fun hc => h hc.2
    have hr1 : eraseDuplicatesHM 1 sz st
        (mismatchState hp base sz sz' tid st st').heapMap [] = (0, []) := by
      simp [mismatchState, eraseDuplicatesHM, eraseDuplicatesBM, dupInfo,
        hne1]
    have hr2 : eraseDuplicatesHM 2 sz' st'
        (mismatchState hp base sz sz' tid st st').heapMap [] = (0, []) := by
      simp [mismatchState, eraseDuplicatesHM, eraseDuplicatesBM, dupInfo,
        hne2]
    have hs1 := rlStep_dupLeak_agg o e
      (mismatchState hp base sz sz' tid st st').heapMap true [] base sz 1
      tid st haggon (hcrt _ _) hst (by simp)
    have hs2 := rlStep_dupLeak_agg o e
      (mismatchState hp base sz sz' tid st st').heapMap false [] (base + 1)
      sz' 2 tid st' haggon (hcrt _ _) hst' (by simp)
    rw [hr1] at hs1
    rw [hr2] at hs2
    constructor
    · simp only [ReportLeaks, hoff, Bool.false_eq_true, if_false]
      show (reportLeaksHeaps o e none (mismatchState hp base sz sz' tid st
        st').heapMap [(hp, [(base, dupInfo 1 sz tid st),
          (base + 1, dupInfo 2 sz' tid st')])] true []).count = 2
      simp only [reportLeaksHeaps, reportLeaksBlocks, hs1, hs2]
    · simp only [ReportLeaks, hoff, Bool.false_eq_true, if_false]
      show (leakEntries (reportLeaksHeaps o e none (mismatchState hp base sz
        sz' tid st st').heapMap [(hp, [(base, dupInfo 1 sz tid st),
          (base + 1, dupInfo 2 sz' tid st')])] true []).events).length = 2
      simp only [reportLeaksHeaps, reportLeaksBlocks, hs1, hs2]
      simp [leakEntries]

/-- Duplicate aggregation enabled, everything else clear. -/
def optsAgg : Opts := { optsDefault with aggregateDuplicates := true }

theorem C2_aggregation_roundtrip_witness :
    optsAgg.vldOff = false
    ∧ (∀ a b, envDefault.crtDetect a b = none)
    ∧ envDefault.isCrtStartup [9, 10] = false
    ∧ optsAgg.aggregateDuplicates = true
    ∧ (ReportLeaks optsAgg envDefault (dupState 1 4096 8 5 3 [9, 10])).1
        = 3 :=
  ⟨rfl, fun a b => rfl, rfl, rfl,
   ((C2_aggregation_roundtrip optsAgg envDefault 1 4096 8 5 2 [9, 10] rfl
      (fun a b => rfl) rfl).1 rfl).1⟩

/-! ### ReportLeaks idempotence: a report pass mutates only flags, and
eraseDuplicates only reads the fields a pass never changes. -/

/-- The fields of a block that eraseDuplicates reads (key, serial number,
size, call stack); a report pass never changes them. -/
def projB (p : Nat × BlockInfo) : Nat × Nat × Nat × Option (List Nat) :=
  (p.1, p.2.serialNumber, p.2.size, p.2.callStack)

def projBM (bm : BlockMap) : List (Nat × Nat × Nat × Option (List Nat)) :=
  bm.map projB

def projHM (hm : HeapMap) :
    List (Nat × List (Nat × Nat × Nat × Option (List Nat))) :=
  hm.map (fun h => (h.1, projBM h.2))

theorem eraseDuplicatesBM_congr (es ez : Nat) (st : List Nat)
    {bm1 bm2 : BlockMap} (h : projBM bm1 = projBM bm2) (agg : List Nat) :
    eraseDuplicatesBM es ez st bm1 agg = eraseDuplicatesBM es ez st bm2 agg := by
  induction bm1 generalizing bm2 agg with
  | nil =>
      have : bm2 = [] := by
        rcases bm2 with _ | ⟨q, rest⟩
        · rfl
        · simp [projBM] at h
      rw [this]
  | cons p rest ih =>
      rcases bm2 with _ | ⟨q, rest2⟩
      · simp [projBM] at h
      · simp only [projBM, List.map_cons, List.cons.injEq] at h
        obtain ⟨hh, ht⟩ := h
        simp only [projB, Prod.mk.injEq] at hh
        obtain ⟨h1, h2, h3, h4⟩ := hh
        have ihh := fun agg => ih ht agg
        obtain ⟨addr, info⟩ := p
        obtain ⟨addr2, info2⟩ := q
        simp only at h2 h3 h4
        simp only [eraseDuplicatesBM, h2, h3, h4]
        simp only [ihh]

theorem eraseDuplicatesHM_congr (es ez : Nat) (st : List Nat)
    {hm1 hm2 : HeapMap} (h : projHM hm1 = projHM hm2) (agg : List Nat) :
    eraseDuplicatesHM es ez st hm1 agg
      = eraseDuplicatesHM es ez st hm2 agg := by
  induction hm1 generalizing hm2 agg with
  | nil =>
      have : hm2 = [] := by
        rcases hm2 with _ | ⟨q, rest⟩
        · rfl
        · simp [projHM] at h
      rw [this]
  | cons p rest ih =>
      rcases hm2 with _ | ⟨q, rest2⟩
      · simp [projHM] at h
      · simp only [projHM, List.map_cons, List.cons.injEq] at h
        obtain ⟨hh, ht⟩ := h
        have hbm : projBM p.2 = projBM q.2 := congrArg Prod.snd hh
        have ihh := fun agg => ih ht agg
        simp only [eraseDuplicatesHM,
          eraseDuplicatesBM_congr es ez st hbm agg, ihh]

theorem eraseDuplicates_congr (es ez : Nat) (stO : Option (List Nat))
    {hm1 hm2 : HeapMap} (h : projHM hm1 = projHM hm2) (agg : List Nat) :
    eraseDuplicates hm1 es ez stO agg = eraseDuplicates hm2 es ez stO agg := by
  rcases stO with _ | st
  · rfl
  · exact eraseDuplicatesHM_congr es ez st h agg

theorem isDebugCrtAlloc_fields (e : Env) (addr : Nat) (info : BlockInfo) :
    (isDebugCrtAlloc e addr info).2.serialNumber = info.serialNumber
    ∧ (isDebugCrtAlloc e addr info).2.size = info.size
    ∧ (isDebugCrtAlloc e addr info).2.callStack = info.callStack
    ∧ (isDebugCrtAlloc e addr info).2.threadId = info.threadId
    ∧ (isDebugCrtAlloc e addr info).2.reported = info.reported := by
  by_cases hd : info.debugCrtAlloc
  · simp [isDebugCrtAlloc, hd]
  · rcases hp : e.crtDetect addr info.size with _ | u
    · simp [isDebugCrtAlloc, hd, hp]
    · simp [isDebugCrtAlloc, hd, hp]

theorem isDebugCrtAlloc_idem (e : Env) (addr : Nat) (info : BlockInfo) :
    isDebugCrtAlloc e addr (isDebugCrtAlloc e addr info).2
      = isDebugCrtAlloc e addr info := by
  by_cases hd : info.debugCrtAlloc
  · simp [isDebugCrtAlloc, hd]
  · rcases hp : e.crtDetect addr info.size with _ | u
    · simp [isDebugCrtAlloc, hd, hp]
    · simp [isDebugCrtAlloc, hd, hp]

theorem tidSkip_congr (tid : Option Nat) {a b : BlockInfo}
    (h : a.threadId = b.threadId) : tidSkip tid a = tidSkip tid b := by
  rcases tid with _ | t
  · rfl
  · simp [tidSkip, h]

theorem rlStep_fields (o : Opts) (e : Env) (tid : Option Nat) (hm : HeapMap)
    (first : Bool) (agg : List Nat) (addr : Nat) (info : BlockInfo) :
    (rlStep o e tid hm first agg addr info).info.serialNumber
        = info.serialNumber
    ∧ (rlStep o e tid hm first agg addr info).info.size = info.size
    ∧ (rlStep o e tid hm first agg addr info).info.callStack = info.callStack
    ∧ (rlStep o e tid hm first agg addr info).info.threadId = info.threadId
    ∧ ((rlStep o e tid hm first agg addr info).info.reported = info.reported
        ∨ ((rlStep o e tid hm first agg addr info).info.reported = true
            ∧ o.skipCrtStartupLeaks = true
            ∧ stackIsStartup e info.callStack = true)) := by
  obtain ⟨hf1, hf2, hf3, hf4, hf5⟩ := isDebugCrtAlloc_fields e addr info
  simp only [rlStep]
  split
  · exact ⟨rfl, rfl, rfl, rfl, Or.inl rfl⟩
  split
  · exact ⟨rfl, rfl, rfl, rfl, Or.inl rfl⟩
  split
  · exact ⟨rfl, rfl, rfl, rfl, Or.inl rfl⟩
  split
  · exact ⟨hf1, hf2, hf3, hf4, Or.inl hf5⟩
  split
  · rename_i hcond
    refine ⟨hf1, hf2, hf3, hf4, Or.inr ⟨rfl, hcond.1, ?_⟩⟩
    rw [← hf3]
    exact hcond.2
  · exact ⟨hf1, hf2, hf3, hf4, Or.inl hf5⟩

theorem rlStep_eq_tidskip (o : Opts) (e : Env) (tid : Option Nat)
    (hm : HeapMap) (first : Bool) (agg : List Nat) (addr : Nat)
    (info : BlockInfo) (h1 : info.reported = false)
    (h2 : tidSkip tid info = true) :
    rlStep o e tid hm first agg addr info = ⟨info, first, agg, 0, []⟩ := by
  simp [rlStep, h1, h2]

theorem rlStep_eq_aggMem (o : Opts) (e : Env) (tid : Option Nat)
    (hm : HeapMap) (first : Bool) (agg : List Nat) (addr : Nat)
    (info : BlockInfo) (h1 : info.reported = false)
    (h2 : tidSkip tid info = false) (h3 : info.serialNumber ∈ agg) :
    rlStep o e tid hm first agg addr info = ⟨info, first, agg, 0, []⟩ := by
  simp [rlStep, h1, h2, h3]

theorem rlStep_eq_crtskip (o : Opts) (e : Env) (tid : Option Nat)
    (hm : HeapMap) (first : Bool) (agg : List Nat) (addr : Nat)
    (info : BlockInfo) (h1 : info.reported = false)
    (h2 : tidSkip tid info = false) (h3 : info.serialNumber ∉ agg)
    (h4 : (isDebugCrtAlloc e addr info).1 = true
      ∧ (CRT_USE_TYPE (e.crtUse addr (isDebugCrtAlloc e addr info).2.ucrt)
            = CRT_USE_FREE
        ∨ CRT_USE_TYPE (e.crtUse addr (isDebugCrtAlloc e addr info).2.ucrt)
            = CRT_USE_INTERNAL)) :
    rlStep o e tid hm first agg addr info
      = ⟨(isDebugCrtAlloc e addr info).2, first, agg, 0, []⟩ := by
  simp only [rlStep, h1, Bool.false_eq_true, if_false, h2, if_neg h3,
    if_pos h4]

theorem rlStep_eq_startup (o : Opts) (e : Env) (tid : Option Nat)
    (hm : HeapMap) (first : Bool) (agg : List Nat) (addr : Nat)
    (info : BlockInfo) (h1 : info.reported = false)
    (h2 : tidSkip tid info = false) (h3 : info.serialNumber ∉ agg)
    (h4 : ¬((isDebugCrtAlloc e addr info).1 = true
      ∧ (CRT_USE_TYPE (e.crtUse addr (isDebugCrtAlloc e addr info).2.ucrt)
            = CRT_USE_FREE
        ∨ CRT_USE_TYPE (e.crtUse addr (isDebugCrtAlloc e addr info).2.ucrt)
            = CRT_USE_INTERNAL)))
    (h5 : o.skipCrtStartupLeaks = true
      ∧ stackIsStartup e (isDebugCrtAlloc e addr info).2.callStack = true) :
    rlStep o e tid hm first agg addr info
      = ⟨{ (isDebugCrtAlloc e addr info).2 with reported := true },
         first, agg, 0, []⟩ := by
  simp only [rlStep, h1, Bool.false_eq_true, if_false, h2, if_neg h3,
    if_neg h4, if_pos h5]

theorem rlStep_stable (o : Opts) (e : Env) (tid : Option Nat)
    (hmA hmB : HeapMap) (hproj : projHM hmA = projHM hmB)
    (first : Bool) (agg : List Nat) (addr : Nat) (info : BlockInfo) :
    rlStep o e tid hmB first agg addr
        (rlStep o e tid hmA first agg addr info).info
      = rlStep o e tid hmA first agg addr info := by
  obtain ⟨hp1, hp2, hp3, hp4, hp5⟩ := isDebugCrtAlloc_fields e addr info
  have hED : ∀ es ez stO agg2, eraseDuplicates hmB es ez stO agg2
      = eraseDuplicates hmA es ez stO agg2 :=
    fun es ez stO agg2 => eraseDuplicates_congr es ez stO hproj.symm agg2
  rcases hrep : info.reported with _ | _
  case true =>
    rw [rlStep_reported o e tid hmA first agg addr info hrep]
    exact rlStep_reported o e tid hmB first agg addr info hrep
  case false =>
  rcases htid : tidSkip tid info with _ | _
  case true =>
    rw [rlStep_eq_tidskip o e tid hmA first agg addr info hrep htid]
    exact rlStep_eq_tidskip o e tid hmB first agg addr info hrep htid
  case false =>
  by_cases hmem : info.serialNumber ∈ agg
  · rw [rlStep_eq_aggMem o e tid hmA first agg addr info hrep htid hmem]
    exact rlStep_eq_aggMem o e tid hmB first agg addr info hrep htid hmem
  have hrep2 : (isDebugCrtAlloc e addr info).2.reported = false := by
    rw [hp5]; exact hrep
  have htid2 : tidSkip tid (isDebugCrtAlloc e addr info).2 = false := by
    rw [tidSkip_congr tid hp4]; exact htid
  have hmem2 : (isDebugCrtAlloc e addr info).2.serialNumber ∉ agg := by
    rw [hp1]; exact hmem
  by_cases h4 : (isDebugCrtAlloc e addr info).1 = true
      ∧ (CRT_USE_TYPE (e.crtUse addr (isDebugCrtAlloc e addr info).2.ucrt)
            = CRT_USE_FREE
        ∨ CRT_USE_TYPE (e.crtUse addr (isDebugCrtAlloc e addr info).2.ucrt)
            = CRT_USE_INTERNAL)
  · rw [rlStep_eq_crtskip o e tid hmA first agg addr info hrep htid hmem h4]
    have h42 := h4
    rw [show (isDebugCrtAlloc e addr info)
        = isDebugCrtAlloc e addr (isDebugCrtAlloc e addr info).2 from
        (isDebugCrtAlloc_idem e addr info).symm] at h42
    rw [rlStep_eq_crtskip o e tid hmB first agg addr
      (isDebugCrtAlloc e addr info).2 hrep2 htid2 hmem2 h42,
      isDebugCrtAlloc_idem]
  by_cases h5 : o.skipCrtStartupLeaks = true
      ∧ stackIsStartup e (isDebugCrtAlloc e addr info).2.callStack = true
  · rw [rlStep_eq_startup o e tid hmA first agg addr info hrep htid hmem h4
      h5]
    exact rlStep_reported o e tid hmB first agg addr _ rfl
  · simp only [rlStep, hrep, Bool.false_eq_true, if_false, htid, if_neg hmem,
      if_neg h4, if_neg h5, isDebugCrtAlloc_idem, hrep2, htid2, hmem2,
      hED]

theorem reportLeaksBlocks_stable (o : Opts) (e : Env) (tid : Option Nat)
    (hmA hmB : HeapMap) (hproj : projHM hmA = projHM hmB)
    (bs : BlockMap) (first : Bool) (agg : List Nat) :
    reportLeaksBlocks o e tid hmB
        (reportLeaksBlocks o e tid hmA bs first agg).blocks first agg
      = reportLeaksBlocks o e tid hmA bs first agg := by
  induction bs generalizing first agg with
  | nil => rfl
  | cons q rest ih =>
      obtain ⟨addr, info⟩ := q
      simp only [reportLeaksBlocks]
      rw [rlStep_stable o e tid hmA hmB hproj first agg addr info]
      rw [ih]

theorem reportLeaksBlocks_proj (o : Opts) (e : Env) (tid : Option Nat)
    (hm : HeapMap) (bs : BlockMap) (first : Bool) (agg : List Nat) :
    projBM (reportLeaksBlocks o e tid hm bs first agg).blocks = projBM bs := by
  induction bs generalizing first agg with
  | nil => rfl
  | cons q rest ih =>
      obtain ⟨addr, info⟩ := q
      obtain ⟨h1, h2, h3, -, -⟩ := rlStep_fields o e tid hm first agg addr info
      simp only [reportLeaksBlocks, projBM, List.map_cons, List.cons.injEq]
      constructor
      · simp [projB, h1, h2, h3]
      · exact ih _ _

theorem reportLeaksBlocks_flags (o : Opts) (e : Env) (tid : Option Nat)
    (hm : HeapMap) (bs : BlockMap) (first : Bool) (agg : List Nat) :
    List.Forall₂ (fun p q => p.1 = q.1
      ∧ ((q : Nat × BlockInfo).2.reported
            = (p : Nat × BlockInfo).2.reported
        ∨ (q.2.reported = true ∧ o.skipCrtStartupLeaks = true
            ∧ stackIsStartup e p.2.callStack = true)))
      bs (reportLeaksBlocks o e tid hm bs first agg).blocks := by
  induction bs generalizing first agg with
  | nil => exact List.Forall₂.nil
  | cons q rest ih =>
      obtain ⟨addr, info⟩ := q
      obtain ⟨-, -, -, -, h5⟩ := rlStep_fields o e tid hm first agg addr info
      exact List.Forall₂.cons ⟨rfl, h5⟩ (ih _ _)

theorem reportLeaksHeaps_stable (o : Opts) (e : Env) (tid : Option Nat)
    (snapA snapB : HeapMap) (hproj : projHM snapA = projHM snapB)
    (hm : HeapMap) (first : Bool) (agg : List Nat) :
    reportLeaksHeaps o e tid snapB
        (reportLeaksHeaps o e tid snapA hm first agg).heaps first agg
      = reportLeaksHeaps o e tid snapA hm first agg := by
  induction hm generalizing first agg with
  | nil => rfl
  | cons q rest ih =>
      obtain ⟨hp, bm⟩ := q
      simp only [reportLeaksHeaps]
      rw [reportLeaksBlocks_stable o e tid snapA snapB hproj bm first agg]
      rw [ih]

theorem reportLeaksHeaps_proj (o : Opts) (e : Env) (tid : Option Nat)
    (snap : HeapMap) (hm : HeapMap) (first : Bool) (agg : List Nat) :
    projHM (reportLeaksHeaps o e tid snap hm first agg).heaps = projHM hm := by
  induction hm generalizing first agg with
  | nil => rfl
  | cons q rest ih =>
      obtain ⟨hp, bm⟩ := q
      simp only [reportLeaksHeaps, projHM, List.map_cons, List.cons.injEq]
      constructor
      · simp [reportLeaksBlocks_proj]
      · exact ih _ _

theorem reportLeaksHeaps_flags (o : Opts) (e : Env) (tid : Option Nat)
    (snap : HeapMap) (hm : HeapMap) (first : Bool) (agg : List Nat) :
    List.Forall₂ (fun h1 h2 => (h1 : Nat × BlockMap).1 = (h2 : Nat × BlockMap).1
      ∧ List.Forall₂ (fun p q => p.1 = q.1
          ∧ ((q : Nat × BlockInfo).2.reported
                = (p : Nat × BlockInfo).2.reported
            ∨ (q.2.reported = true ∧ o.skipCrtStartupLeaks = true
                ∧ stackIsStartup e p.2.callStack = true))) h1.2 h2.2)
      hm (reportLeaksHeaps o e tid snap hm first agg).heaps := by
  induction hm generalizing first agg with
  | nil => exact List.Forall₂.nil
  | cons q rest ih =>
      obtain ⟨hp, bm⟩ := q
      exact List.Forall₂.cons ⟨rfl, reportLeaksBlocks_flags o e tid snap bm
        first agg⟩ (ih _ _)

/-- C10: a ReportLeaks pass never sets the reported flag on the blocks it
outputs: at most the reported flag of blocks whose stack classifies as CRT
startup is set, and only when the skip-CRT-startup option is enabled (the
per-block CRT-layout flags may also be cached); the duplicate-aggregation
set is created afresh inside every call; consequently a second ReportLeaks
with no intervening ledger change returns the same leak count, re-emits
exactly the same output, and leaves the ledger exactly as the first call
left it. -/
theorem C10_reportLeaks_idempotent (o : Opts) (e : Env) (s : LedgerState) :
    ReportLeaks o e (ReportLeaks o e s).2.1 = ReportLeaks o e s
    ∧ List.Forall₂ (fun h1 h2 =>
        (h1 : Nat × BlockMap).1 = (h2 : Nat × BlockMap).1
        ∧ List.Forall₂ (fun p q => p.1 = q.1
            ∧ ((q : Nat × BlockInfo).2.reported
                  = (p : Nat × BlockInfo).2.reported
              ∨ (q.2.reported = true ∧ o.skipCrtStartupLeaks = true
                  ∧ stackIsStartup e p.2.callStack = true))) h1.2 h2.2)
        s.heapMap (ReportLeaks o e s).2.1.heapMap := by
  rcases hoff : o.vldOff with _ | _
  case true =>
    constructor
    · simp [ReportLeaks, hoff]
    · simp only [ReportLeaks, hoff, if_true]
      refine List.forall₂_same.mpr ?_
      intro x _
      refine ⟨rfl, List.forall₂_same.mpr ?_⟩
      intro q _
      exact ⟨rfl, Or.inl rfl⟩
  case false =>
    have hproj : projHM s.heapMap
        = projHM (reportLeaksHeaps o e none s.heapMap s.heapMap true
            []).heaps :=
      (reportLeaksHeaps_proj o e none s.heapMap s.heapMap true []).symm
    constructor
    · simp only [ReportLeaks, hoff, Bool.false_eq_true, if_false]
      rw [reportLeaksHeaps_stable o e none s.heapMap _ hproj s.heapMap
        true []]
    · simp only [ReportLeaks, hoff, Bool.false_eq_true, if_false]
      exact reportLeaksHeaps_flags o e none s.heapMap s.heapMap true []

/-! ### Per-thread capture protocol (CaptureContext) -/

/-- GET_RETURN_ADDRESS on the saved thread context.  Modelled from the
spec: the macro lives in a utility header outside the shown source and the
spec describes the reentrancy guard as an implicit thread-local
frame-pointer null check, so the saved context is probed through its frame
pointer (CaptureContext::Reset nulls exactly these fields). -/
def GET_RETURN_ADDRESS (c : ContextT) : Nat := c.fp

/-- tls_t: the per-thread capture state CaptureContext reads and writes;
the VLD_TLS_DEBUGCRTALLOC and VLD_TLS_UCRT flag bits are booleans here. -/
structure Tls where
  context : ContextT
  flagDebugCrt : Bool
  flagUcrt : Bool
  heap : Nat
  blockWithoutGuard : Nat
  newBlockWithoutGuard : Nat
  size : Nat
  threadId : Nat
deriving Repr, DecidableEq

/-- The CaptureContext object: m_bFirst and m_context (the caller's
context the constructor wrote the function address into). -/
structure CaptureCtx where
  bFirst : Bool
  ctx : ContextT
deriving Repr, DecidableEq

/-- CaptureContext::CaptureContext: writes the originating function into
the caller's context, or-s the CRT flags into the thread state, and only
when no capture is in progress on this thread (null saved return address)
records the context as the thread's capture context. -/
def captureEnter (func : Nat) (callerCtx : ContextT) (debug ucrt : Bool)
    (tls : Tls) : CaptureCtx × Tls :=
  let mctx : ContextT := { callerCtx with func := func }
  let tls1 := { tls with
    flagDebugCrt := tls.flagDebugCrt || debug,
    flagUcrt := tls.flagUcrt || ucrt }
  if GET_RETURN_ADDRESS tls.context = 0 then
    ({ bFirst := true, ctx := mctx }, { tls1 with context := mctx })
  else
    ({ bFirst := false, ctx := mctx }, tls1)

/-- CaptureContext::Set: stash the completed call's heap, old and new
addresses and size; with VLD_OPT_TRACE_INTERNAL_FRAMES the frame recorded
is moved down to the innermost wrapper. -/
def captureSet (o : Opts) (cc : CaptureCtx) (heap mem newmem size : Nat)
    (tls : Tls) : Tls :=
  let tls1 := { tls with
    heap := heap, blockWithoutGuard := mem,
    newBlockWithoutGuard := newmem, size := size }
  if mem ≠ 0 ∧ o.traceInternalFrames = true then
    { tls1 with context := cc.ctx }
  else tls1

/-- CaptureContext::Reset: null the saved context, clear the CRT flags and
the pending allocation parameters. -/
def captureReset (tls : Tls) : Tls :=
  { tls with
    context := ⟨0, 0⟩, flagDebugCrt := false, flagUcrt := false,
    heap := 0, blockWithoutGuard := 0, newBlockWithoutGuard := 0,
    size := 0 }

/-- pblockInfo->callStack.reset(callstack): bind the captured stack to the
committed record, which the ledger operation left at the committed
address. -/
def attachStack (s : LedgerState) (heap addr : Nat) (st : List Nat) :
    LedgerState :=
  match alookup s.heapMap heap with
  | none => s
  | some bm =>
      match alookup bm addr with
      | none => s
      | some info =>
          { s with
            heapMap := aupdate s.heapMap heap
              (aupdate bm addr { info with callStack := some st }) }

/-- CaptureContext::~CaptureContext: a nested context returns immediately;
the outermost context, when an address was produced and the calling module
is not excluded, commits a Map (fresh allocation) or Remap (reallocation)
into the ledger and attaches a freshly captured call stack to the
committed record, then resets the thread state for the next allocation. -/
def captureExit (o : Opts) (e : Env) (cc : CaptureCtx) (excluded : Bool)
    (tls : Tls) (s : LedgerState) :
    Tls × LedgerState × List ReportEvent :=
  if cc.bFirst = false then (tls, s, [])
  else
    let r :=
      if tls.blockWithoutGuard ≠ 0 ∧ excluded = false then
        if tls.newBlockWithoutGuard = 0 then
          let m := mapBlock s tls.heap tls.blockWithoutGuard tls.size
            tls.flagDebugCrt tls.flagUcrt tls.threadId
          (attachStack m.1 tls.heap tls.blockWithoutGuard
            (e.captureStack tls.context), m.2.2)
        else
          let m := remapBlock o e s tls.blockWithoutGuard
            tls.newBlockWithoutGuard tls.heap tls.size tls.flagDebugCrt
            tls.flagUcrt tls.threadId tls.context
          (attachStack m.1 tls.heap tls.newBlockWithoutGuard
            (e.captureStack tls.context), m.2.2)
      else (s, [])
    (captureReset tls, r.1, r.2)

theorem attachStack_lookup (s : LedgerState) (heap addr : Nat)
    (st : List Nat) (bm : BlockMap) (info : BlockInfo)
    (hh : alookup s.heapMap heap = some bm)
    (hbm : alookup bm addr = some info) :
    alookup ((alookup (attachStack s heap addr st).heapMap heap).getD [])
        addr = some { info with callStack := some st } := by
  simp only [attachStack, hh, hbm]
  rw [alookup_aupdate_self _ hh]
  simp only [Option.getD_some]
  exact alookup_aupdate_self _ hbm

/-- C8: only the outermost entry into the capture protocol on a thread
(entered while the thread's saved context is empty) records a frame
pointer and, on exit with an address produced and a non-excluded module,
commits a Map (fresh allocation) or Remap (in-place reallocation) into the
ledger with a freshly captured call stack attached; every nested re-entry
while a capture is in progress records no frame pointer, and its exit
commits nothing and changes neither the thread state nor the ledger. -/
theorem C8_capture_protocol (o : Opts) (e : Env) (func : Nat)
    (callerCtx : ContextT) (debug ucrt : Bool) (tls : Tls)
    (s : LedgerState) (excluded : Bool) :
    (GET_RETURN_ADDRESS tls.context ≠ 0 →
      (captureEnter func callerCtx debug ucrt tls).1.bFirst = false
      ∧ (captureEnter func callerCtx debug ucrt tls).2.context
          = tls.context)
    ∧ (∀ cc : CaptureCtx, cc.bFirst = false →
        captureExit o e cc excluded tls s = (tls, s, []))
    ∧ (GET_RETURN_ADDRESS tls.context = 0 →
      (captureEnter func callerCtx debug ucrt tls).1.bFirst = true
      ∧ (captureEnter func callerCtx debug ucrt tls).2.context
          = { callerCtx with func := func })
    ∧ (∀ cc : CaptureCtx, cc.bFirst = true → excluded = false →
        tls.blockWithoutGuard ≠ 0 → tls.newBlockWithoutGuard = 0 →
        alookup ((alookup s.heapMap tls.heap).getD [])
            tls.blockWithoutGuard = none →
        (captureExit o e cc excluded tls s).1 = captureReset tls
        ∧ ∃ bi, alookup ((alookup (captureExit o e cc excluded tls
              s).2.1.heapMap tls.heap).getD []) tls.blockWithoutGuard
            = some bi
          ∧ bi.callStack = some (e.captureStack tls.context)
          ∧ bi.size = tls.size % W
          ∧ bi.threadId = tls.threadId
          ∧ bi.serialNumber = s.requestCurr
          ∧ bi.reported = false)
    ∧ (∀ cc : CaptureCtx, cc.bFirst = true → excluded = false →
        tls.blockWithoutGuard ≠ 0 →
        tls.newBlockWithoutGuard = tls.blockWithoutGuard →
        ∀ bm info, alookup s.heapMap tls.heap = some bm →
          alookup bm tls.blockWithoutGuard = some info →
          (captureExit o e cc excluded tls s).1 = captureReset tls
          ∧ ∃ bi, alookup ((alookup (captureExit o e cc excluded tls
                s).2.1.heapMap tls.heap).getD []) tls.blockWithoutGuard
              = some bi
            ∧ bi.callStack = some (e.captureStack tls.context)
            ∧ bi.size = tls.size % W
            ∧ bi.serialNumber = info.serialNumber) := by
  refine ⟨?_, ?_, ?_, ?_, ?_⟩
  · intro h
    simp [captureEnter, if_neg h]
  · intro cc hcc
    simp [captureExit, hcc]
  · intro h
    simp [captureEnter, if_pos h]
  · intro cc hcc hexc hblk hnew hfresh
    have hcond : tls.blockWithoutGuard ≠ 0 ∧ excluded = false := ⟨hblk, hexc⟩
    have hres : captureExit o e cc excluded tls s
        = (captureReset tls,
           attachStack (mapBlock s tls.heap tls.blockWithoutGuard tls.size
               tls.flagDebugCrt tls.flagUcrt tls.threadId).1 tls.heap
             tls.blockWithoutGuard (e.captureStack tls.context),
           (mapBlock s tls.heap tls.blockWithoutGuard tls.size
               tls.flagDebugCrt tls.flagUcrt tls.threadId).2.2) := by
      simp only [captureExit, hcc, Bool.true_eq_false, if_false,
        if_pos hcond, hnew, eq_self_iff_true, if_true]
    rw [hres]
    refine ⟨rfl, ?_⟩
    rcases hh : alookup s.heapMap tls.heap with _ | bm
    · -- fresh heap: the record was appended as the single entry
      have hmap := mapBlock_heapMap_newheap s tls.heap tls.blockWithoutGuard
        tls.size tls.flagDebugCrt tls.flagUcrt tls.threadId hh
      have hl1 : alookup (mapBlock s tls.heap tls.blockWithoutGuard tls.size
          tls.flagDebugCrt tls.flagUcrt tls.threadId).1.heapMap tls.heap
          = some [(tls.blockWithoutGuard,
              newBlockInfo s.requestCurr (tls.size % W) tls.threadId
                tls.flagDebugCrt tls.flagUcrt)] := by
        rw [hmap]
        exact alookup_append_of_none hh _
      have hl2 : alookup [(tls.blockWithoutGuard,
          newBlockInfo s.requestCurr (tls.size % W) tls.threadId
            tls.flagDebugCrt tls.flagUcrt)] tls.blockWithoutGuard
          = some (newBlockInfo s.requestCurr (tls.size % W) tls.threadId
              tls.flagDebugCrt tls.flagUcrt) := by
        simp [alookup]
      refine ⟨_, attachStack_lookup _ _ _ _ _ _ hl1 hl2, rfl, rfl, rfl, rfl,
        rfl⟩
    · -- known heap, fresh address: appended at the end of its block map
      have hbm : alookup bm tls.blockWithoutGuard = none := by
        rw [hh] at hfresh
        simpa using hfresh
      have hmap := mapBlock_heapMap_freshaddr s tls.heap
        tls.blockWithoutGuard tls.size tls.flagDebugCrt tls.flagUcrt
        tls.threadId bm hh hbm
      have hl1 : alookup (mapBlock s tls.heap tls.blockWithoutGuard tls.size
          tls.flagDebugCrt tls.flagUcrt tls.threadId).1.heapMap tls.heap
          = some (bm ++ [(tls.blockWithoutGuard,
              newBlockInfo s.requestCurr (tls.size % W) tls.threadId
                tls.flagDebugCrt tls.flagUcrt)]) := by
        rw [hmap]
        exact alookup_aupdate_self _ hh
      have hl2 := alookup_append_of_none hbm
        (newBlockInfo s.requestCurr (tls.size % W) tls.threadId
          tls.flagDebugCrt tls.flagUcrt)
      refine ⟨_, attachStack_lookup _ _ _ _ _ _ hl1 hl2, rfl, rfl, rfl, rfl,
        rfl⟩
  · intro cc hcc hexc hblk hnew bm info hh hbm
    have hcond : tls.blockWithoutGuard ≠ 0 ∧ excluded = false := ⟨hblk, hexc⟩
    have hnz : tls.newBlockWithoutGuard ≠ 0 := by rw [hnew]; exact hblk
    have hres : captureExit o e cc excluded tls s
        = (captureReset tls,
           attachStack (remapBlock o e s tls.blockWithoutGuard
               tls.newBlockWithoutGuard tls.heap tls.size tls.flagDebugCrt
               tls.flagUcrt tls.threadId tls.context).1 tls.heap
             tls.newBlockWithoutGuard (e.captureStack tls.context),
           (remapBlock o e s tls.blockWithoutGuard tls.newBlockWithoutGuard
               tls.heap tls.size tls.flagDebugCrt tls.flagUcrt tls.threadId
               tls.context).2.2) := by
      simp only [captureExit, hcc, Bool.true_eq_false, if_false,
        if_pos hcond, if_neg hnz]
    rw [hres]
    refine ⟨rfl, ?_⟩
    have hne : ¬tls.newBlockWithoutGuard ≠ tls.blockWithoutGuard := by
      rw [hnew]
      exact fun hf => hf rfl
    have hrmap : (remapBlock o e s tls.blockWithoutGuard
        tls.newBlockWithoutGuard tls.heap tls.size tls.flagDebugCrt
        tls.flagUcrt tls.threadId tls.context).1.heapMap
        = aupdate s.heapMap tls.heap (aupdate bm tls.blockWithoutGuard
            (remapInfo info tls.threadId (tls.size % W))) := by
      rw [hnew]
      simp only [remapBlock, if_neg (by exact fun hf => hf rfl :
        ¬tls.blockWithoutGuard ≠ tls.blockWithoutGuard), hh, hbm]
    have hl1 : alookup (remapBlock o e s tls.blockWithoutGuard
        tls.newBlockWithoutGuard tls.heap tls.size tls.flagDebugCrt
        tls.flagUcrt tls.threadId tls.context).1.heapMap tls.heap
        = some (aupdate bm tls.blockWithoutGuard
            (remapInfo info tls.threadId (tls.size % W))) := by
      rw [hrmap]
      exact alookup_aupdate_self _ hh
    have hl2 : alookup (aupdate bm tls.blockWithoutGuard
        (remapInfo info tls.threadId (tls.size % W)))
        tls.blockWithoutGuard
        = some (remapInfo info tls.threadId (tls.size % W)) :=
      alookup_aupdate_self _ hbm
    rw [hnew] at hl1 ⊢
    refine ⟨_, attachStack_lookup _ _ _ _ _ _ hl1 hl2, rfl, rfl, rfl⟩

/-- Concrete data for the capture protocol witness. -/
def tlsC8 : Tls :=
  { context := ⟨0, 0⟩, flagDebugCrt := false, flagUcrt := false,
    heap := 1, blockWithoutGuard := 4096, newBlockWithoutGuard := 0,
    size := 64, threadId := 7 }

theorem C8_capture_protocol_witness :
    (⟨false, ⟨0, 0⟩⟩ : CaptureCtx).bFirst = false
    ∧ captureExit optsDefault envDefault ⟨false, ⟨0, 0⟩⟩ false tlsC8
        initState = (tlsC8, initState, []) :=
  ⟨rfl,
   (C8_capture_protocol optsDefault envDefault 9 ⟨9, 77⟩ false false tlsC8
      initState false).2.1 ⟨false, ⟨0, 0⟩⟩ rfl⟩

/-! NtDll loader patch (vld.cpp 101-279, 32-bit x86 branch). Memory is a
byte store addressed by Nat. The Windows APIs VirtualQuery and
VirtualProtect are outside the repository: VirtualQuery is modelled by
supplying the containing region as explicit parameters, and VirtualProtect
is modelled as always succeeding. The address of LdrpCallInitRoutine is a
parameter. -/

/-- A flat byte memory; writeByte truncates the stored value to a byte. -/
structure Mem where
  bytes : Nat → Nat

def writeByte (m : Mem) (a v : Nat) : Mem :=
  ⟨fun x => if x = a then v % 256 else m.bytes x⟩

def writeBytes (m : Mem) (a : Nat) : List Nat → Mem
  | [] => m
  | v :: vs => writeBytes (writeByte m a v) (a + 1) vs

def readBytes (m : Mem) (a : Nat) : Nat → List Nat
  | 0 => []
  | n + 1 => m.bytes a :: readBytes m (a + 1) n

/-- memset of n bytes of value v starting at a. -/
def memsetN (m : Mem) (a v n : Nat) : Mem :=
  writeBytes m a (List.replicate n v)

/-- A 32-bit value as 4 little-endian bytes (a DWORD store; negative
pointer differences are taken mod 2 to the 32, as the DWORD cast does). -/
def le32 (v : Int) : List Nat :=
  let w := (v % (2 ^ 32 : Int)).toNat
  [w % 256, w / 2 ^ 8 % 256, w / 2 ^ 16 % 256, w / 2 ^ 24 % 256]

/-- Backward scan for a 3-byte instruction pattern, fuel-bounded, used by
NtDllFindParamAddress and NtDllFindCallAddress (while pAddress minus
decremented ptr stays below 0x20, i.e. 31 probes). Returns 0 (NULL) when
the pattern is not found. -/
def scanBack3 (m : Mem) (b0 b1 b2 : Nat) : Nat → Nat → Nat
  | 0, _ => 0
  | fuel + 1, ptr =>
    if m.bytes ptr = b0 ∧ m.bytes (ptr + 1) = b1 ∧ m.bytes (ptr + 2) = b2
    then ptr
    else scanBack3 m b0 b1 b2 fuel (ptr - 1)

/-- vld.cpp 120-136 (32-bit): find push dword ptr [ebp+14h]
(FF 75 14) within the 31 bytes before pAddress. -/
def NtDllFindParamAddress (m : Mem) (pAddress : Nat) : Nat :=
  scanBack3 m 0xFF 0x75 0x14 31 (pAddress - 1)

/-- vld.cpp 138-157 (32-bit): find call dword ptr [ebp+08h]
(FF 55 08) within the 31 bytes before pAddress. -/
def NtDllFindCallAddress (m : Mem) (pAddress : Nat) : Nat :=
  scanBack3 m 0xFF 0x55 0x08 31 (pAddress - 1)

/-- vld.cpp 101-118: one iteration state of the spare-zero-byte scan;
fuel-bounded version of: while (end - begin < dwSize and begin is not
pAddress) if (*(--begin) is nonzero) end = begin; then return begin if it
is not pAddress, else NULL. -/
def detourScan (m : Mem) (dwSize pAddress : Nat) : Nat → Nat → Nat → Nat
  | 0, b, _ => if b ≠ pAddress then b else 0
  | fuel + 1, b, e =>
    if e - b < dwSize ∧ b ≠ pAddress then
      let b2 := b - 1
      let e2 := if m.bytes b2 ≠ 0 then b2 else e
      detourScan m dwSize pAddress fuel b2 e2
    else
      if b ≠ pAddress then b else 0

/-- vld.cpp 101-118: VirtualQuery is modelled by the supplied region
(regionBase, regionSize) containing pAddress. -/
def NtDllFindDetourAddress (m : Mem) (regionBase regionSize : Nat)
    (pAddress dwSize : Nat) : Nat :=
  detourScan m dwSize pAddress (regionBase + regionSize)
    (regionBase + regionSize) (regionBase + regionSize)

/-- vld.cpp 159-166: NTDLL_LDR_PATCH. pBackup is the saved byte array. -/
structure NTDLL_LDR_PATCH where
  pPatchAddress : Nat
  nPatchSize : Nat
  pBackup : List Nat
  pDetourAddress : Nat
  nDetourSize : Nat
  bState : Bool

/-- vld.cpp 171-258, 32-bit branch: ptr = FF 75 08 (3 bytes),
mov = 90 B8 plus a 4-byte immediate (6 bytes), call = FF D0 (2 bytes),
jmp = E9 plus a 4-byte displacement (5 bytes). Both VirtualProtect calls
are modelled as succeeding. The function returns the struct field bState,
as the source does. -/
def NtDllPatchFn (regionBase regionSize ldrp pReturnAddress : Nat)
    (m : Mem) (st : NTDLL_LDR_PATCH) : Mem × NTDLL_LDR_PATCH × Bool :=
  let r : Mem × NTDLL_LDR_PATCH :=
    if st.bState = true then (m, st)
    else
      let pPatchAddress := NtDllFindParamAddress m pReturnAddress
      let pCallAddress := NtDllFindCallAddress m pReturnAddress
      let nPatchSize := pReturnAddress - pPatchAddress
      let nParamSize := pCallAddress - pPatchAddress
      let nDetourSize := 3 + nParamSize + 6 + 5
      let pDetourAddress := NtDllFindDetourAddress m regionBase regionSize
        pReturnAddress nDetourSize
      let st1 :=
        { st with
          pPatchAddress := pPatchAddress, nPatchSize := nPatchSize,
          nDetourSize := nDetourSize, pDetourAddress := pDetourAddress }
      if pPatchAddress ≠ 0 ∧ pDetourAddress ≠ 0 ∧ 5 + 2 ≤ nPatchSize then
        let st2 :=
          { st1 with
            pBackup := readBytes m pPatchAddress nPatchSize }
        let m1 := memsetN m pDetourAddress 0x90 nDetourSize
        let m2 := writeBytes m1 pDetourAddress [0xFF, 0x75, 0x08]
        let m3 := writeBytes m2 (pDetourAddress + 3)
          (readBytes m2 pPatchAddress nParamSize)
        let m4 := writeBytes m3 (pDetourAddress + 3 + nParamSize)
          ([0x90, 0xB8] ++ le32 (ldrp : Int))
        let m5 := writeBytes m4 (pDetourAddress + 3 + nParamSize + 6)
          (0xE9 :: le32 ((pReturnAddress : Int) - 2
            - ((pDetourAddress : Int) + (nDetourSize : Int))))
        let m6 := memsetN m5 pPatchAddress 0x90 nPatchSize
        let m7 := writeBytes m6 (pReturnAddress - 2 - 5)
          (0xE9 :: le32 ((pDetourAddress : Int)
            - ((pReturnAddress : Int) - 2)))
        let m8 := writeBytes m7 (pReturnAddress - 2) [0xFF, 0xD0]
        let st3 :=
          { st2 with
            bState := true }
        (m8, st3)
      else
        (m, st1)
  (r.1, r.2, r.2.bState)

/-- vld.cpp 261-279: restore the saved bytes at the patch site and zero
the detour region. The address of pBackup[0] is an array member and never
NULL, so the guard is bState and nPatchSize. VirtualProtect is modelled as
succeeding; bResult is a local, and bState is not cleared (as in the
source). -/
def NtDllRestoreFn (m : Mem) (st : NTDLL_LDR_PATCH) :
    Mem × NTDLL_LDR_PATCH × Bool :=
  if st.bState = true ∧ st.nPatchSize ≠ 0 then
    let m1 := writeBytes m st.pPatchAddress (st.pBackup.take st.nPatchSize)
    let m2 := memsetN m1 st.pDetourAddress 0x00 st.nDetourSize
    (m2, st, true)
  else
    (m, st, false)

theorem writeBytes_bytes_lt (m : Mem) (a : Nat) (vs : List Nat) (x : Nat)
    (h : x < a) : (writeBytes m a vs).bytes x = m.bytes x := by
  induction vs generalizing m a with
  | nil => rfl
  | cons v vs ih =>
    simp only [writeBytes]
    rw [ih (writeByte m a v) (a + 1) (Nat.lt_succ_of_lt h)]
    show (if x = a then v % 256 else m.bytes x) = m.bytes x
    rw [if_neg (by omega)]

theorem readBytes_agree (m1 m2 : Mem) : ∀ (n a : Nat),
    (∀ i, i < n → m1.bytes (a + i) = m2.bytes (a + i)) →
    readBytes m1 a n = readBytes m2 a n := by
  intro n
  induction n with
  | zero =>
    intro a _
    rfl
  | succ k ih =>
    intro a h
    simp only [readBytes]
    have h0 : m1.bytes a = m2.bytes a := by
      simpa using h 0 (Nat.succ_pos k)
    have ht : readBytes m1 (a + 1) k = readBytes m2 (a + 1) k := by
      refine ih (a + 1) ?_
      intro i hi
      have hx := h (i + 1) (by omega)
      rw [show a + 1 + i = a + (i + 1) from by omega]
      exact hx
    rw [h0, ht]

theorem readBytes_writeBytes : ∀ (vs : List Nat) (m : Mem) (a : Nat),
    (∀ v ∈ vs, v < 256) →
    readBytes (writeBytes m a vs) a vs.length = vs := by
  intro vs
  induction vs with
  | nil =>
    intro m a _
    rfl
  | cons v vs ih =>
    intro m a h
    simp only [writeBytes, List.length_cons, readBytes]
    have h1 : (writeBytes (writeByte m a v) (a + 1) vs).bytes a = v := by
      rw [writeBytes_bytes_lt _ _ _ _ (Nat.lt_succ_self a)]
      show (if a = a then v % 256 else m.bytes a) = v
      rw [if_pos rfl]
      exact Nat.mod_eq_of_lt (h v (List.mem_cons_self v vs))
    rw [h1,
      ih (writeByte m a v) (a + 1) (fun w hw => h w (List.mem_cons_of_mem v hw))]

theorem readBytes_writeBytes_n (m : Mem) (a n : Nat) (vs : List Nat)
    (hlen : vs.length = n) (h : ∀ v ∈ vs, v < 256) :
    readBytes (writeBytes m a vs) a n = vs := by
  subst hlen
  exact readBytes_writeBytes vs m a h

theorem NtDllPatchFn_flag (rb rs ldrp ret : Nat) (m : Mem)
    (st : NTDLL_LDR_PATCH) :
    (NtDllPatchFn rb rs ldrp ret m st).2.2
      = (NtDllPatchFn rb rs ldrp ret m st).2.1.bState := rfl

theorem NtDllPatchFn_noop (rb rs ldrp ret : Nat) (m : Mem)
    (st : NTDLL_LDR_PATCH) (h : st.bState = true) :
    NtDllPatchFn rb rs ldrp ret m st = (m, st, true) := by
  simp [NtDllPatchFn, h]

theorem NtDllRestoreFn_unset (m : Mem) (st : NTDLL_LDR_PATCH)
    (h : st.bState = false) : NtDllRestoreFn m st = (m, st, false) := by
  simp [NtDllRestoreFn, h]

/-- C9: the loader-hook patch is idempotent: NtDllPatch with bState
already set returns at once with true, rewriting no bytes and touching no
field, so a second application after a successful one is a complete
no-op; a successful application sets the gating flag; NtDllRestore with
the flag unset returns failure and changes nothing, it returns success
only when the flag is set, and under the flag (with a nonzero patch size,
the backup covering it, and the detour region beyond the patch site, as a
successful patch establishes) it succeeds and rewrites exactly the saved
bytes at the patch site. -/
theorem C9_patch_idempotent_restore_gated
    (regionBase regionSize ldrp ret : Nat) (m : Mem)
    (st : NTDLL_LDR_PATCH) :
    (st.bState = true →
      NtDllPatchFn regionBase regionSize ldrp ret m st = (m, st, true))
    ∧ ((NtDllPatchFn regionBase regionSize ldrp ret m st).2.2 = true →
      (NtDllPatchFn regionBase regionSize ldrp ret m st).2.1.bState
        = true)
    ∧ (∀ m1 st1,
      NtDllPatchFn regionBase regionSize ldrp ret m st = (m1, st1, true) →
      NtDllPatchFn regionBase regionSize ldrp ret m1 st1
        = (m1, st1, true))
    ∧ (st.bState = false → NtDllRestoreFn m st = (m, st, false))
    ∧ ((NtDllRestoreFn m st).2.2 = true → st.bState = true)
    ∧ (st.bState = true → st.nPatchSize ≠ 0 →
      st.pPatchAddress + st.nPatchSize ≤ st.pDetourAddress →
      st.nPatchSize ≤ st.pBackup.length →
      (∀ v ∈ st.pBackup, v < 256) →
      (NtDllRestoreFn m st).2.2 = true
      ∧ readBytes (NtDllRestoreFn m st).1 st.pPatchAddress st.nPatchSize
          = st.pBackup.take st.nPatchSize) := by
  refine ⟨NtDllPatchFn_noop _ _ _ _ _ _, ?_, ?_, NtDllRestoreFn_unset m st,
    ?_, ?_⟩
  · intro h
    rw [← NtDllPatchFn_flag]
    exact h
  · intro m1 st1 h
    have hb : st1.bState = true := by
      have h2 := NtDllPatchFn_flag regionBase regionSize ldrp ret m st
      rw [h] at h2
      exact h2.symm
    exact NtDllPatchFn_noop _ _ _ _ _ _ hb
  · intro h
    by_cases hb : st.bState = true
    · exact hb
    · have hb0 : st.bState = false := by
        cases hc : st.bState
        · rfl
        · exact absurd hc hb
      rw [NtDllRestoreFn_unset m st hb0] at h
      exact absurd h (by simp)
  · intro h1 h2 hle hlen hbyte
    have hg : st.bState = true ∧ st.nPatchSize ≠ 0 := ⟨h1, h2⟩
    have hres : NtDllRestoreFn m st
        = (memsetN
            (writeBytes m st.pPatchAddress
              (st.pBackup.take st.nPatchSize))
            st.pDetourAddress 0x00 st.nDetourSize, st, true) := by
      simp only [NtDllRestoreFn, if_pos hg]
    rw [hres]
    refine ⟨rfl, ?_⟩
    have hskip : readBytes
        (memsetN
          (writeBytes m st.pPatchAddress (st.pBackup.take st.nPatchSize))
          st.pDetourAddress 0x00 st.nDetourSize)
        st.pPatchAddress st.nPatchSize
        = readBytes
          (writeBytes m st.pPatchAddress (st.pBackup.take st.nPatchSize))
          st.pPatchAddress st.nPatchSize := by
      refine readBytes_agree _ _ st.nPatchSize st.pPatchAddress ?_
      intro i hi
      show (writeBytes _ st.pDetourAddress
        (List.replicate st.nDetourSize 0x00)).bytes
          (st.pPatchAddress + i) = _
      exact writeBytes_bytes_lt _ _ _ _ (by omega)
    rw [hskip]
    refine readBytes_writeBytes_n m st.pPatchAddress st.nPatchSize _ ?_ ?_
    · rw [List.length_take]
      omega
    · intro v hv
      exact hbyte v (List.take_subset _ _ hv)

/-- Concrete state after a successful patch, exercising the restore
conjuncts of the loader-patch claim. -/
def stC9 : NTDLL_LDR_PATCH :=
  { pPatchAddress := 100, nPatchSize := 3, pBackup := [0xFF, 0x75, 0x14],
    pDetourAddress := 200, nDetourSize := 17, bState := true }

def memC9 : Mem := ⟨fun _ => 0⟩

theorem C9_patch_idempotent_restore_gated_witness :
    NtDllPatchFn 0 4096 7 300 memC9 stC9 = (memC9, stC9, true)
    ∧ (NtDllRestoreFn memC9 stC9).2.2 = true
    ∧ readBytes (NtDllRestoreFn memC9 stC9).1 stC9.pPatchAddress
        stC9.nPatchSize = stC9.pBackup.take stC9.nPatchSize := by
  have h := C9_patch_idempotent_restore_gated 0 4096 7 300 memC9 stC9
  exact ⟨h.1 rfl, h.2.2.2.2.2 rfl (by decide) (by decide) (by decide)
    (by decide)⟩
